import Mathlib

/-!
# Ghost: invite attribution, join ledger and rank logic

A shallow embedding of `src/index.js`.  The SQLite tables are lists of rows,
the prepared statements are functions on the database value, the two gateway
handlers (`GuildMemberAdd`, `GuildMemberRemove`) are functions on the process
state (database plus the in-memory invite cache), and the pure helpers
(`rankNameByInvites`, `nextRankInfo`, `isRealEnough`, `leftTooFast`, ...) are
translated line by line.

Numbers: SQLite `INTEGER` columns and millisecond timestamps are `Int`.  The two
numeric settings `MIN_ACCOUNT_AGE_DAYS` and `MIN_STAY_HOURS` are `ℚ`, so that the
source's divisions by `86400000` and `3600000` are exact; `NaN` (an unparsable
setting) behaves like `0` in the source, because both are falsy.
-/

namespace Ghost

/-! ## Configuration (environment variables) -/

/-- Settings read from the environment when the process starts. -/
structure Config where
  GUILD_ID : String
  ROLE_BRONZE_ID : String
  ROLE_PRATA_ID : String
  ROLE_OURO_ID : String
  ROLE_PLATINA_ID : String
  ROLE_DIAMANTE_ID : String
  MIN_ACCOUNT_AGE_DAYS : ℚ
  MIN_STAY_HOURS : ℚ

/-- The array `ALL_RANK_ROLE_IDS`. -/
def ALL_RANK_ROLE_IDS (cfg : Config) : List String :=
  [cfg.ROLE_BRONZE_ID, cfg.ROLE_PRATA_ID, cfg.ROLE_OURO_ID,
   cfg.ROLE_PLATINA_ID, cfg.ROLE_DIAMANTE_ID]

/-- What `mustEnv` guarantees: the five role ids are non-empty strings. -/
def Config.rolesSet (cfg : Config) : Prop :=
  cfg.ROLE_BRONZE_ID ≠ "" ∧ cfg.ROLE_PRATA_ID ≠ "" ∧ cfg.ROLE_OURO_ID ≠ "" ∧
  cfg.ROLE_PLATINA_ID ≠ "" ∧ cfg.ROLE_DIAMANTE_ID ≠ ""

instance (cfg : Config) : Decidable cfg.rolesSet := by
  unfold Config.rolesSet; infer_instance

/-- JavaScript truthiness of a value that is a string, `null` or `undefined`. -/
def truthy : Option String → Bool
  | none => false
  | some s => s != ""

/-! ## Database (SQLite tables) -/

/-- A row of table `personal_invites`. -/
structure PersonalInviteRow where
  user_id : String
  invite_code : String
  invite_url : String
  created_at : Int
  deriving DecidableEq, Repr

/-- A row of table `joins`; `inviter_id` and `invite_code` are nullable. -/
structure JoinRow where
  member_id : String
  inviter_id : Option String
  invite_code : Option String
  joined_at : Int
  counted_real : Int
  reversed : Int
  deriving DecidableEq, Repr

/-- A row of table `inviter_stats`. -/
structure StatRow where
  user_id : String
  real_joins : Int
  deriving DecidableEq, Repr

/-- The tables the handlers read and write. -/
structure Db where
  personal_invites : List PersonalInviteRow
  joins : List JoinRow
  inviter_stats : List StatRow
  deriving DecidableEq, Repr

/-- Statement `getPersonalInviteOwnerByCode`: the first row with that code. -/
def getPersonalInviteOwnerByCode (db : Db) (code : String) : Option PersonalInviteRow :=
  db.personal_invites.find? (fun r => r.invite_code = code)

/-- Statement `getJoinRow`. -/
def getJoinRow (db : Db) (memberId : String) : Option JoinRow :=
  db.joins.find? (fun r => r.member_id = memberId)

/-- Statement `hasJoin`: `.get` yields a row exactly when one exists. -/
def hasJoin (db : Db) (memberId : String) : Bool :=
  (db.joins.find? (fun r => r.member_id = memberId)).isSome

/-- Statement `insertJoin` (`reversed` is the literal `0`).  `member_id` is the
primary key: on a duplicate key the statement throws and inserts nothing,
which is `none` here. -/
def insertJoin (db : Db) (memberId : String) (inviterId : Option String)
    (code : Option String) (joinedAt : Int) (counted : Int) : Option Db :=
  if hasJoin db memberId then none
  else
    let row : JoinRow :=
      { member_id := memberId, inviter_id := inviterId, invite_code := code,
        joined_at := joinedAt, counted_real := counted, reversed := 0 }
    some { db with joins := db.joins ++ [row] }

/-- Statement `markReversed`: `UPDATE joins SET reversed=1 WHERE member_id=?`. -/
def markReversed (db : Db) (memberId : String) : Db :=
  let rows := db.joins.map
    (fun r => if r.member_id = memberId then { r with reversed := 1 } else r)
  { db with joins := rows }

/-- Statement `incInviter`: insert `(user_id, 1)`, or add one on conflict. -/
def incInviter (db : Db) (userId : String) : Db :=
  if db.inviter_stats.any (fun r => r.user_id = userId) then
    let rows := db.inviter_stats.map
      (fun r => if r.user_id = userId then { r with real_joins := r.real_joins + 1 } else r)
    { db with inviter_stats := rows }
  else
    { db with inviter_stats := db.inviter_stats ++ [{ user_id := userId, real_joins := 1 }] }

/-- Statement `decInviter`:
`SET real_joins = CASE WHEN real_joins > 0 THEN real_joins - 1 ELSE 0 END WHERE user_id=?`.
The argument is `row.inviter_id`, a nullable column: with `NULL` the `WHERE`
clause matches no row. -/
def decInviter (db : Db) (userId : Option String) : Db :=
  match userId with
  | none => db
  | some u =>
    let rows := db.inviter_stats.map
      (fun r => if r.user_id = u then
          { r with real_joins := if r.real_joins > 0 then r.real_joins - 1 else 0 }
        else r)
    { db with inviter_stats := rows }

/-- Statement `getInviterCount`. -/
def getInviterCount (db : Db) (userId : String) : Option StatRow :=
  db.inviter_stats.find? (fun r => r.user_id = userId)

/-- The expression `getInviterCount.get(id)?.real_joins ?? 0`. -/
def inviterCount (db : Db) (userId : String) : Int :=
  match getInviterCount db userId with
  | some r => r.real_joins
  | none => 0

/-! ## Rank logic -/

/-- Function `rankRoleIdByInvites`; `none` is `null`. -/
def rankRoleIdByInvites (cfg : Config) (count : Int) : Option String :=
  if count ≥ 100 then some cfg.ROLE_DIAMANTE_ID
  else if count ≥ 60 then some cfg.ROLE_PLATINA_ID
  else if count ≥ 30 then some cfg.ROLE_OURO_ID
  else if count ≥ 14 then some cfg.ROLE_PRATA_ID
  else if count ≥ 1 then some cfg.ROLE_BRONZE_ID
  else none

/-- Function `rankNameByInvites`. -/
def rankNameByInvites (count : Int) : String :=
  if count ≥ 100 then "DIAMANTE"
  else if count ≥ 60 then "PLATINA"
  else if count ≥ 30 then "OURO"
  else if count ≥ 14 then "PRATA"
  else if count ≥ 1 then "BRONZE"
  else "SEM RANK"

/-- An entry of the array `steps` of `nextRankInfo`. -/
structure RankStep where
  name : String
  min : Int
  deriving DecidableEq, Repr

/-- The result object of `nextRankInfo`; `next = none` is `null`. -/
structure NextRank where
  next : Option String
  missing : Int
  deriving DecidableEq, Repr

/-- The array `steps` of `nextRankInfo`. -/
def steps : List RankStep :=
  [⟨"BRONZE", 1⟩, ⟨"PRATA", 14⟩, ⟨"OURO", 30⟩, ⟨"PLATINA", 60⟩, ⟨"DIAMANTE", 100⟩]

/-- The `for (const s of steps)` loop of `nextRankInfo`, with its fall-through. -/
def nextRankLoop (count : Int) : List RankStep → NextRank
  | [] => { next := none, missing := 0 }
  | s :: rest =>
    if count < s.min then { next := some s.name, missing := s.min - count }
    else nextRankLoop count rest

/-- Function `nextRankInfo`. -/
def nextRankInfo (count : Int) : NextRank :=
  if count ≥ 100 then { next := none, missing := 0 }
  else nextRankLoop count steps

/-- A request sent to the platform by `syncInviterRank`. -/
inductive RoleCall where
  | remove (roles : List String)
  | add (role : String)
  deriving DecidableEq, Repr

/-- Function `syncInviterRank`, as the list of role requests it issues, in order.
`member` is the role-id set `member.roles.cache` of the fetched member (`none`
when the fetch fails); `cacheAfterRemove` is what `member.roles.cache` holds
when it is read again after an issued `roles.remove` (the platform library may
or may not have refreshed it). -/
def syncInviterRank (cfg : Config) (member : Option (List String)) (count : Int)
    (cacheAfterRemove : List String) : List RoleCall :=
  match member with
  | none => []
  | some roles =>
    let targetRoleId := rankRoleIdByInvites cfg count
    match targetRoleId with
    | none => []
    | some target =>
      if target = "" then []
      else
        let toRemove := (ALL_RANK_ROLE_IDS cfg).filter (fun rid => rid ∈ roles)
        let removeCalls := if toRemove.length ≠ 0 then [RoleCall.remove toRemove] else []
        let cache := if toRemove.length ≠ 0 then cacheAfterRemove else roles
        let addCalls := if target ∉ cache then [RoleCall.add target] else []
        removeCalls ++ addCalls

/-- All role ids named in the `remove` requests of a request list. -/
def removedRoles : List RoleCall → List String
  | [] => []
  | RoleCall.remove rs :: rest => rs ++ removedRoles rest
  | RoleCall.add _ :: rest => removedRoles rest

/-- All role ids named in the `add` requests of a request list. -/
def addedRoles : List RoleCall → List String
  | [] => []
  | RoleCall.remove _ :: rest => addedRoles rest
  | RoleCall.add r :: rest => r :: addedRoles rest

/-! ## Anti-fraud heuristic -/

/-- `RegExp.test` for the four patterns of `isSuspiciousUsername`, all of the
shape `^lit\d{n,}$`: the literal, then at least `n` characters up to the end
of the input, all of them ASCII digits. -/
def testLitDigits (lit : List Char) (n : Nat) (u : List Char) : Bool :=
  lit.isPrefixOf u && decide (n ≤ (u.drop lit.length).length) &&
    (u.drop lit.length).all Char.isDigit

/-- Function `isSuspiciousUsername`.  `(username || "")` maps `null` to the empty
string; `toLowerCase` is taken on ASCII letters, which is all that can matter
for a full match of these patterns. -/
def isSuspiciousUsername (username : Option String) : Bool :=
  let u := ((username.getD "").toList).map Char.toLower
  testLitDigits ['u', 's', 'e', 'r'] 4 u ||
  testLitDigits ['d', 'i', 's', 'c', 'o', 'r', 'd'] 4 u ||
  testLitDigits ['g', 'u', 'e', 's', 't'] 3 u ||
  testLitDigits ['n', 'o', 'v', 'o'] 3 u

/-- The fields of `member.user` the heuristic reads. -/
structure User where
  id : String
  bot : Bool
  createdTimestamp : Int
  username : Option String
  avatar : Option String
  deriving DecidableEq, Repr

/-- A guild member as delivered with a gateway event. -/
structure Member where
  user : User
  guildId : String
  deriving DecidableEq, Repr

/-- The getter `member.id`. -/
def Member.id (m : Member) : String := m.user.id

/-- Function `isRealEnough`; `now` is the value of `Date.now()`. -/
def isRealEnough (cfg : Config) (now : Int) (member : Member) : Bool :=
  if member.user.bot then false
  else if cfg.MIN_ACCOUNT_AGE_DAYS ≠ 0 ∧
      (((now - member.user.createdTimestamp : Int) : ℚ) / 86400000 < cfg.MIN_ACCOUNT_AGE_DAYS) then
    false
  else
    let suspiciousName := isSuspiciousUsername member.user.username
    let noAvatar := !truthy member.user.avatar
    if suspiciousName && noAvatar then false else true

/-- Function `leftTooFast`; `now` is the value of `Date.now()`. -/
def leftTooFast (cfg : Config) (now : Int) (joinedAt : Int) : Bool :=
  if cfg.MIN_STAY_HOURS = 0 then false
  else decide ((((now - joinedAt : Int) : ℚ) / 3600000) < cfg.MIN_STAY_HOURS)

/-! ## Invite snapshots and the two gateway handlers -/

/-- An invite of a fetched collection; `uses` may be `null`. -/
structure Invite where
  code : String
  uses : Option Int
  deriving DecidableEq, Repr

/-- The expression `old?.uses ?? 0` for `old = oldInvites.get(code)`. -/
def oldUsesOf (oldInvites : List Invite) (code : String) : Int :=
  match oldInvites.find? (fun i => i.code = code) with
  | some old => old.uses.getD 0
  | none => 0

/-- The callback given to `newInvites.find`. -/
def usesIncreased (oldInvites : List Invite) (inv : Invite) : Bool :=
  decide (inv.uses.getD 0 > oldUsesOf oldInvites inv.code)

/-- The call `newInvites.find(...)`: first invite whose use count went up. -/
def findUsed (oldInvites newInvites : List Invite) : Option Invite :=
  newInvites.find? (usesIncreased oldInvites)

/-- The snapshot diff of the arrival handler, from the cache lookup to `used`:
no code without a previous snapshot. -/
def resolveUsedCode (oldInvites : Option (List Invite)) (newInvites : List Invite) :
    Option String :=
  match oldInvites with
  | none => none
  | some old => (findUsed old newInvites).map (fun i => i.code)

/-- The map `invitesCache` (guild id to last fetched collection), in insertion order. -/
abbrev InvitesCache := List (String × List Invite)

/-- Method `invitesCache.get`. -/
def cacheGet (c : InvitesCache) (guildId : String) : Option (List Invite) :=
  (c.find? (fun e => e.1 = guildId)).map (fun e => e.2)

/-- Method `invitesCache.set`. -/
def cacheSet (c : InvitesCache) (guildId : String) (v : List Invite) : InvitesCache :=
  if c.any (fun e => e.1 = guildId) then
    c.map (fun e => if e.1 = guildId then (guildId, v) else e)
  else c ++ [(guildId, v)]

/-- The mutable state the handlers work on. -/
structure State where
  db : Db
  invitesCache : InvitesCache

/-- Handler of `Events.GuildMemberAdd`.  `fetched` is the result of
`guild.invites.fetch()` (`none` when it throws); `nowCheck` and `nowInsert` are
the two readings of `Date.now()` (in `isRealEnough` and for `joined_at`).  The
closing `syncInviterRank` call only sends role requests and does not touch the
state; it is `syncInviterRank` above. -/
def onGuildMemberAdd (cfg : Config) (s : State) (member : Member)
    (fetched : Option (List Invite)) (nowCheck nowInsert : Int) : State :=
  if member.guildId ≠ cfg.GUILD_ID then s
  else
    let oldInvites := cacheGet s.invitesCache member.guildId
    match fetched with
    | none => s
    | some newInvites =>
      let s1 : State := { s with invitesCache := cacheSet s.invitesCache member.guildId newInvites }
      match oldInvites with
      | none => s1
      | some old =>
        match findUsed old newInvites with
        | none => s1
        | some used =>
          match getPersonalInviteOwnerByCode s1.db used.code with
          | none => s1
          | some owner =>
            if owner.user_id = "" then s1
            else if hasJoin s1.db member.id then s1
            else
              let inviterId := owner.user_id
              let counted : Int := if isRealEnough cfg nowCheck member then 1 else 0
              match insertJoin s1.db member.id (some inviterId) (some used.code) nowInsert counted with
              | none => s1
              | some db1 =>
                if counted = 0 then { s1 with db := db1 }
                else { s1 with db := incInviter db1 inviterId }

/-- Handler of `Events.GuildMemberRemove`; `now` is the reading of `Date.now()`
in `leftTooFast`.  The closing `syncInviterRank` call is left out as above. -/
def onGuildMemberRemove (cfg : Config) (s : State) (member : Member) (now : Int) : State :=
  if member.guildId ≠ cfg.GUILD_ID then s
  else
    match getJoinRow s.db member.id with
    | none => s
    | some row =>
      if row.counted_real ≠ 1 then s
      else if row.reversed = 1 then s
      else if !leftTooFast cfg now row.joined_at then s
      else { s with db := markReversed (decInviter s.db row.inviter_id) member.id }

/-- A gateway event together with what the handler observes while it runs. -/
inductive Event where
  | memberAdd (member : Member) (fetched : Option (List Invite)) (nowCheck nowInsert : Int)
  | memberRemove (member : Member) (now : Int)

/-- One event handled to completion. -/
def step (cfg : Config) (s : State) : Event → State
  | Event.memberAdd member fetched nowCheck nowInsert =>
    onGuildMemberAdd cfg s member fetched nowCheck nowInsert
  | Event.memberRemove member now => onGuildMemberRemove cfg s member now

/-- Events handled one at a time, in order. -/
def run (cfg : Config) (s : State) (evs : List Event) : State :=
  evs.foldl (step cfg) s

/-- Number of `joins` rows with the given `inviter_id`, `counted_real = 1` and
`reversed = 0`. -/
def activeJoins (db : Db) (inviter : String) : Nat :=
  db.joins.countP (fun r => r.inviter_id = some inviter ∧ r.counted_real = 1 ∧ r.reversed = 0)

/-- A call of one of the two counter statements. -/
inductive CounterOp where
  | inc (userId : String)
  | dec (userId : String)
  deriving DecidableEq, Repr

/-- One counter statement run against the database. -/
def applyCounterOp (db : Db) : CounterOp → Db
  | CounterOp.inc u => incInviter db u
  | CounterOp.dec u => decInviter db (some u)

/-- Counter statements run one after the other. -/
def applyCounterOps (db : Db) (ops : List CounterOp) : Db :=
  ops.foldl applyCounterOp db

/-- The words of the specification for one suspicious pattern: the whole name
is the literal, letters compared without regard to case, followed by at least
`n` decimal digits and nothing else. -/
def FullMatchCI (lit : List Char) (n : Nat) (name : List Char) : Prop :=
  ∃ pre digits, name = pre ++ digits ∧ pre.map Char.toLower = lit ∧
    n ≤ digits.length ∧ ∀ c ∈ digits, c.isDigit = true

/-- The words of the specification: the username fully matches, without regard
to case, one of `user\d{4,}`, `discord\d{4,}`, `guest\d{3,}`, `novo\d{3,}`
(an absent username is the empty name). -/
def SuspiciousName (username : Option String) : Prop :=
  FullMatchCI ['u', 's', 'e', 'r'] 4 (username.getD "").toList ∨
  FullMatchCI ['d', 'i', 's', 'c', 'o', 'r', 'd'] 4 (username.getD "").toList ∨
  FullMatchCI ['g', 'u', 'e', 's', 't'] 3 (username.getD "").toList ∨
  FullMatchCI ['n', 'o', 'v', 'o'] 3 (username.getD "").toList

/-- A concrete configuration for worked examples: guild "g", the five role ids
"r-bronze" ... "r-diamante", a minimum account age of 7 days and a minimum
stay of 1 hour. -/
def demoConfig : Config :=
  { GUILD_ID := "g", ROLE_BRONZE_ID := "r-bronze", ROLE_PRATA_ID := "r-prata",
    ROLE_OURO_ID := "r-ouro", ROLE_PLATINA_ID := "r-platina",
    ROLE_DIAMANTE_ID := "r-diamante", MIN_ACCOUNT_AGE_DAYS := 7, MIN_STAY_HOURS := 1 }

/-- Start of the worked example: the inviter "inviter" owns the personal invite
"CODE", the tables `joins` and `inviter_stats` are empty, and the cached
snapshot of guild "g" shows "CODE" at 0 uses. -/
def demoState0 : State :=
  { db := { personal_invites := [⟨"inviter", "CODE", "https://discord.gg/CODE", 0⟩],
            joins := [], inviter_stats := [] },
    invitesCache := [("g", [⟨"CODE", some 0⟩])] }

/-- The member of the worked example: "m1" in guild "g", not a bot, account
created at time 0, username "ana", no avatar. -/
def demoMember : Member :=
  { user := { id := "m1", bot := false, createdTimestamp := 0, username := some "ana",
              avatar := none },
    guildId := "g" }

/-- The time T0 of the worked example, in milliseconds. -/
def demoT0 : Int := 1000000000000

/-- The worked example after "m1" joined through "CODE" at T0: one counted,
not reversed row, and the counter of "inviter" at 1. -/
def demoState1 : State :=
  { db := { personal_invites := [⟨"inviter", "CODE", "https://discord.gg/CODE", 0⟩],
            joins := [⟨"m1", some "inviter", some "CODE", demoT0, 1, 0⟩],
            inviter_stats := [⟨"inviter", 1⟩] },
    invitesCache := [("g", [⟨"CODE", some 1⟩])] }

/-- The words of the specification for an eligible departure: a row exists for
the member, it is counted and not reversed, a minimum stay is configured, and
the member stayed for less than that many hours. -/
def ReversalEligible (cfg : Config) (db : Db) (memberId : String) (now : Int) : Prop :=
  ∃ row, getJoinRow db memberId = some row ∧ row.counted_real = 1 ∧ row.reversed = 0 ∧
    0 < cfg.MIN_STAY_HOURS ∧
    ((now - row.joined_at : Int) : ℚ) < cfg.MIN_STAY_HOURS * 3600000

/-- The words of the specification for an applied reversal, between the database
before and after: the member's row had `reversed = 0` and now is the same row
with `reversed = 1`, and the counter table is the one after one `decInviter`
for the row's inviter. -/
def ReversalApplied (db db2 : Db) (memberId : String) : Prop :=
  ∃ row, getJoinRow db memberId = some row ∧ row.reversed = 0 ∧
    getJoinRow db2 memberId = some { row with reversed := 1 } ∧
    db2.inviter_stats = (decInviter db row.inviter_id).inviter_stats

/-- The ledger invariant: `member_id` is a key of `joins`, every `reversed`
flag is 0 or 1, and every inviter's stored counter (0 without a row) is the
number of that inviter's counted, not reversed rows. -/
def LedgerInv (db : Db) : Prop :=
  (db.joins.map JoinRow.member_id).Nodup ∧
  (∀ r ∈ db.joins, r.reversed = 0 ∨ r.reversed = 1) ∧
  ∀ u, inviterCount db u = (activeJoins db u : Int)

/-- What may happen to one `joins` row between two states: the columns
`member_id`, `inviter_id`, `invite_code`, `joined_at` and `counted_real` are the
same, a `reversed` flag of 1 stays 1, and the flag is either the same or 1. -/
def RowKept (old new : JoinRow) : Prop :=
  new.member_id = old.member_id ∧ new.inviter_id = old.inviter_id ∧
  new.invite_code = old.invite_code ∧ new.joined_at = old.joined_at ∧
  new.counted_real = old.counted_real ∧
  (old.reversed = 1 → new.reversed = 1) ∧
  (new.reversed = old.reversed ∨ new.reversed = 1)

/-- No row of the old table is deleted: the row at every position of the old
table is still at that position in the new one, changed at most as `RowKept`
allows. -/
def JoinsPersist (old new : List JoinRow) : Prop :=
  ∀ (i : Nat) (r : JoinRow), old[i]? = some r → ∃ r2 : JoinRow, new[i]? = some r2 ∧ RowKept r r2

/-! ## Theorems -/

/-! ### Lookup lemmas shared by the proofs -/

theorem find?_map_keep {α : Type} (f : α → α) (p : α → Bool) (hp : ∀ a, p (f a) = p a)
    (l : List α) : (l.map f).find? p = (l.find? p).map f := by
  induction l with
  | nil => rfl
  | cons a l ih =>
    simp only [List.map_cons, List.find?_cons, hp]
    cases p a <;> simp [ih]

theorem find?_map_other {α : Type} (f : α → α) (p q : α → Bool)
    (hq : ∀ a, q (f a) = q a) (hf : ∀ a, p a = false → f a = a)
    (hpq : ∀ a, q a = true → p a = false)
    (l : List α) : (l.map f).find? q = l.find? q := by
  induction l with
  | nil => rfl
  | cons a l ih =>
    simp only [List.map_cons, List.find?_cons, hq]
    cases hqa : q a
    · simpa using ih
    · simp [hf a (hpq a hqa)]

theorem inviterCount_decInviter_same (db : Db) (u : String) :
    inviterCount (decInviter db (some u)) u = max (inviterCount db u - 1) 0 := by
  unfold inviterCount getInviterCount decInviter
  simp only
  rw [find?_map_keep _ _ (by intro a; by_cases h : a.user_id = u <;> simp [h])]
  cases h : db.inviter_stats.find? (fun r => decide (r.user_id = u)) with
  | none => simp
  | some r =>
    have hr : r.user_id = u := by simpa using List.find?_some h
    simp only [Option.map_some', hr, if_true]
    split_ifs with h0
    · rw [max_eq_left (by omega)]
    · rw [max_eq_right (by omega)]

theorem getInviterCount_decInviter_other (db : Db) (u : Option String) (v : String)
    (h : u ≠ some v) : getInviterCount (decInviter db u) v = getInviterCount db v := by
  cases u with
  | none => rfl
  | some u =>
    have huv : u ≠ v := fun e => h (by rw [e])
    unfold getInviterCount decInviter
    simp only
    refine find?_map_other _ (fun r => decide (r.user_id = u)) _ ?_ ?_ ?_ _
    · intro a; by_cases h1 : a.user_id = u <;> simp [h1]
    · intro a ha; simp at ha; simp [ha]
    · intro a ha; simp at ha; simp [ha]; exact fun e => huv e.symm

theorem inviterCount_decInviter_other (db : Db) (u : Option String) (v : String)
    (h : u ≠ some v) : inviterCount (decInviter db u) v = inviterCount db v := by
  unfold inviterCount; rw [getInviterCount_decInviter_other db u v h]

theorem inviterCount_incInviter_same (db : Db) (u : String) :
    inviterCount (incInviter db u) u = inviterCount db u + 1 := by
  unfold inviterCount getInviterCount incInviter
  by_cases hany : db.inviter_stats.any (fun r => decide (r.user_id = u)) = true
  · rw [if_pos hany]
    simp only
    rw [find?_map_keep _ _ (by intro a; by_cases h : a.user_id = u <;> simp [h])]
    cases h : db.inviter_stats.find? (fun r => decide (r.user_id = u)) with
    | none => 
      rw [List.find?_eq_none] at h
      simp only [List.any_eq_true] at hany
      obtain ⟨x, hx, hxu⟩ := hany
      exact absurd hxu (h x hx)
    | some r =>
      have hr : r.user_id = u := by simpa using List.find?_some h
      simp [hr]
  · rw [if_neg hany]
    have hnone : db.inviter_stats.find? (fun r => decide (r.user_id = u)) = none := by
      rw [List.find?_eq_none]
      intro x hx hxu
      exact hany (List.any_eq_true.mpr ⟨x, hx, hxu⟩)
    simp [List.find?_append, hnone]

theorem getInviterCount_incInviter_other (db : Db) (u v : String) (h : u ≠ v) :
    getInviterCount (incInviter db u) v = getInviterCount db v := by
  unfold getInviterCount incInviter
  by_cases hany : db.inviter_stats.any (fun r => decide (r.user_id = u)) = true
  · rw [if_pos hany]
    simp only
    refine find?_map_other _ (fun r => decide (r.user_id = u)) _ ?_ ?_ ?_ _
    · intro a; by_cases h1 : a.user_id = u <;> simp [h1]
    · intro a ha; simp at ha; simp [ha]
    · intro a ha; simp at ha; simp [ha]; exact fun e => h e.symm
  · rw [if_neg hany]
    simp only [List.find?_append]
    cases hf : db.inviter_stats.find? (fun r => decide (r.user_id = v)) with
    | some r => simp
    | none => simp [h]

theorem inviterCount_incInviter_other (db : Db) (u v : String) (h : u ≠ v) :
    inviterCount (incInviter db u) v = inviterCount db v := by
  unfold inviterCount; rw [getInviterCount_incInviter_other db u v h]

theorem inviterCount_nonneg_of_rows (db : Db)
    (h : ∀ r ∈ db.inviter_stats, 0 ≤ r.real_joins) (v : String) : 0 ≤ inviterCount db v := by
  unfold inviterCount getInviterCount
  cases hf : db.inviter_stats.find? (fun r => decide (r.user_id = v)) with
  | none => simp
  | some r => exact h r (List.mem_of_find?_eq_some hf)

theorem incInviter_rows_nonneg (db : Db) (u : String)
    (h : ∀ r ∈ db.inviter_stats, 0 ≤ r.real_joins) :
    ∀ r ∈ (incInviter db u).inviter_stats, 0 ≤ r.real_joins := by
  unfold incInviter
  split_ifs
  · intro r hr
    simp only [List.mem_map] at hr
    obtain ⟨a, ha, rfl⟩ := hr
    have := h a ha
    split_ifs <;> simp <;> omega
  · intro r hr
    simp only [List.mem_append, List.mem_singleton] at hr
    rcases hr with hr | rfl
    · exact h r hr
    · simp

theorem decInviter_rows_nonneg (db : Db) (u : Option String)
    (h : ∀ r ∈ db.inviter_stats, 0 ≤ r.real_joins) :
    ∀ r ∈ (decInviter db u).inviter_stats, 0 ≤ r.real_joins := by
  cases u with
  | none => exact h
  | some u =>
    unfold decInviter
    intro r hr
    simp only [List.mem_map] at hr
    obtain ⟨a, ha, rfl⟩ := hr
    have := h a ha
    split_ifs <;> simp <;> omega

theorem applyCounterOps_rows_nonneg (ops : List CounterOp) :
    ∀ db : Db, (∀ r ∈ db.inviter_stats, 0 ≤ r.real_joins) →
      ∀ r ∈ (applyCounterOps db ops).inviter_stats, 0 ≤ r.real_joins := by
  induction ops with
  | nil => intro db h; exact h
  | cons op ops ih =>
    intro db h
    show ∀ r ∈ (applyCounterOps (applyCounterOp db op) ops).inviter_stats, 0 ≤ r.real_joins
    apply ih
    cases op with
    | inc u => exact incInviter_rows_nonneg db u h
    | dec u => exact decInviter_rows_nonneg db (some u) h

/-- C4: `decInviter` puts `max (old - 1) 0` in the rows of that inviter and
touches nothing else: no row is created (the key column is the same list, and
without a row for the inviter the table is the same), rows of other inviters
are the same, and the other tables are the same; so the value read back is
`max (old - 1) 0`, and after any sequence of `incInviter` / `decInviter` calls
on a table without negative counters no stored counter and no value read back
is negative. -/
theorem decInviter_floor (db : Db) (u : String) :
    (decInviter db (some u)).inviter_stats =
      db.inviter_stats.map (fun r =>
        if r.user_id = u then { r with real_joins := max (r.real_joins - 1) 0 } else r) ∧
    inviterCount (decInviter db (some u)) u = max (inviterCount db u - 1) 0 ∧
    (decInviter db (some u)).inviter_stats.map StatRow.user_id =
      db.inviter_stats.map StatRow.user_id ∧
    (getInviterCount db u = none → decInviter db (some u) = db) ∧
    (∀ v, v ≠ u → getInviterCount (decInviter db (some u)) v = getInviterCount db v) ∧
    (decInviter db (some u)).joins = db.joins ∧
    (decInviter db (some u)).personal_invites = db.personal_invites ∧
    ((∀ r ∈ db.inviter_stats, 0 ≤ r.real_joins) → ∀ ops : List CounterOp,
      (∀ r ∈ (applyCounterOps db ops).inviter_stats, 0 ≤ r.real_joins) ∧
      ∀ v, 0 ≤ inviterCount (applyCounterOps db ops) v) := by
  have hrow : ∀ r : StatRow, (if r.real_joins > 0 then r.real_joins - 1 else 0) =
      max (r.real_joins - 1) 0 := by
    intro r
    split_ifs with h0
    · rw [max_eq_left (by omega)]
    · rw [max_eq_right (by omega)]
  refine ⟨?_, inviterCount_decInviter_same db u, ?_, ?_, ?_, rfl, rfl, ?_⟩
  · show db.inviter_stats.map _ = db.inviter_stats.map _
    apply List.map_congr_left
    intro r _
    simp only [hrow]
  · show (db.inviter_stats.map _).map StatRow.user_id = _
    rw [List.map_map]
    apply List.map_congr_left
    intro r _
    by_cases h : r.user_id = u <;> simp [h]
  · intro hnone
    unfold getInviterCount at hnone
    rw [List.find?_eq_none] at hnone
    have : db.inviter_stats.map (fun r => if r.user_id = u then
          ({ r with real_joins := if r.real_joins > 0 then r.real_joins - 1 else 0 } : StatRow)
        else r) = db.inviter_stats := by
      conv_rhs => rw [← List.map_id db.inviter_stats]
      apply List.map_congr_left
      intro r hr
      have := hnone r hr
      simp at this
      simp [this]
    show ({ db with inviter_stats := _ } : Db) = db
    rw [this]
  · intro v hv
    exact getInviterCount_decInviter_other db (some u) v (by simpa using fun e => hv e.symm)
  · intro h ops
    have hall := applyCounterOps_rows_nonneg ops db h
    exact ⟨hall, inviterCount_nonneg_of_rows _ hall⟩

/-- Witness for C4: from the empty table, one increment among three decrements
of the same inviter leaves the counter at 0, never below. -/
theorem decInviter_floor_witness :
    (∀ r ∈ (Db.mk [] [] []).inviter_stats, 0 ≤ r.real_joins) ∧
    inviterCount (applyCounterOps (Db.mk [] [] [])
      [CounterOp.dec "a", CounterOp.inc "a", CounterOp.dec "a", CounterOp.dec "a"]) "a" = 0 ∧
    0 ≤ inviterCount (applyCounterOps (Db.mk [] [] [])
      [CounterOp.dec "a", CounterOp.inc "a", CounterOp.dec "a", CounterOp.dec "a"]) "a" :=
  ⟨by simp, by decide,
   ((decInviter_floor (Db.mk [] [] []) "a").2.2.2.2.2.2.2 (by simp)
      [CounterOp.dec "a", CounterOp.inc "a", CounterOp.dec "a", CounterOp.dec "a"]).2 "a"⟩

/-! ### The anti-fraud heuristic -/

theorem isDigit_toLower (c : Char) : c.toLower.isDigit = c.isDigit := by
  by_cases h : c.toNat ≥ 65 ∧ c.toNat ≤ 90
  · have hc : c = Char.ofNat c.toNat := (Char.ofNat_toNat c).symm
    obtain ⟨h1, h2⟩ := h
    generalize c.toNat = k at hc h1 h2
    subst hc
    interval_cases k <;> decide
  · unfold Char.toLower
    simp only [h, if_false]

theorem testLitDigits_iff (lit : List Char) (n : Nat) (name : List Char) :
    testLitDigits lit n (name.map Char.toLower) = true ↔ FullMatchCI lit n name := by
  unfold testLitDigits FullMatchCI
  simp only [Bool.and_eq_true, decide_eq_true_eq, List.all_eq_true, List.isPrefixOf_iff_prefix]
  constructor
  · rintro ⟨⟨hpre, hlen⟩, hdig⟩
    refine ⟨name.take lit.length, name.drop lit.length,
      (List.take_append_drop _ _).symm, ?_, ?_, ?_⟩
    · rw [List.map_take]; exact (List.prefix_iff_eq_take.mp hpre).symm
    · rw [← List.map_drop] at hlen; simpa using hlen
    · intro c hc
      rw [← isDigit_toLower]
      apply hdig
      rw [← List.map_drop]
      exact List.mem_map_of_mem _ hc
  · rintro ⟨pre, digits, rfl, hpre, hlen, hdig⟩
    have hl : lit.length = pre.length := by rw [← hpre, List.length_map]
    rw [List.map_append, hpre]
    refine ⟨⟨List.prefix_append _ _, ?_⟩, ?_⟩
    · rw [List.drop_left]; simpa using hlen
    · rw [List.drop_left]
      intro c hc
      obtain ⟨d, hd, rfl⟩ := List.mem_map.mp hc
      rw [isDigit_toLower]
      exact hdig d hd

theorem isSuspiciousUsername_iff (username : Option String) :
    isSuspiciousUsername username = true ↔ SuspiciousName username := by
  unfold isSuspiciousUsername SuspiciousName
  simp only [Bool.or_eq_true, testLitDigits_iff, or_assoc]

theorem isRealEnough_shape (b : Bool) (Y : Prop) [Decidable Y] (sn av : Bool) :
    (if b = true then false
      else if Y then false
      else if (sn && !av) = true then false else true) = false ↔
    (b = true ∨ Y ∨ (sn = true ∧ av = false)) := by
  by_cases hY : Y <;> cases b <;> cases sn <;> cases av <;> simp [hY]

/-- C7: with a non-negative minimum account age, `isRealEnough` answers false
exactly when the member is a bot, or the minimum age is configured (above 0)
and the account is younger than that many days, or the username fully matches
one of the four suspicious patterns (case ignored) and there is no custom
avatar; it answers true in every other case, so a suspicious name with a
custom avatar, not a bot and old enough, counts as real. -/
theorem isRealEnough_false_iff (cfg : Config) (now : Int) (member : Member)
    (hcfg : 0 ≤ cfg.MIN_ACCOUNT_AGE_DAYS) :
    (isRealEnough cfg now member = false ↔
      (member.user.bot = true ∨
       (0 < cfg.MIN_ACCOUNT_AGE_DAYS ∧
         ((now - member.user.createdTimestamp : Int) : ℚ) <
           cfg.MIN_ACCOUNT_AGE_DAYS * 86400000) ∨
       (SuspiciousName member.user.username ∧ truthy member.user.avatar = false))) ∧
    (isRealEnough cfg now member = true ↔
      ¬ (member.user.bot = true ∨
       (0 < cfg.MIN_ACCOUNT_AGE_DAYS ∧
         ((now - member.user.createdTimestamp : Int) : ℚ) <
           cfg.MIN_ACCOUNT_AGE_DAYS * 86400000) ∨
       (SuspiciousName member.user.username ∧ truthy member.user.avatar = false))) ∧
    (member.user.bot = false →
      ¬ (0 < cfg.MIN_ACCOUNT_AGE_DAYS ∧
         ((now - member.user.createdTimestamp : Int) : ℚ) <
           cfg.MIN_ACCOUNT_AGE_DAYS * 86400000) →
      SuspiciousName member.user.username → truthy member.user.avatar = true →
      isRealEnough cfg now member = true) := by
  have hdiv : (((now - member.user.createdTimestamp : Int) : ℚ) / 86400000 <
        cfg.MIN_ACCOUNT_AGE_DAYS) ↔
      (((now - member.user.createdTimestamp : Int) : ℚ) <
        cfg.MIN_ACCOUNT_AGE_DAYS * 86400000) :=
    div_lt_iff₀ (by norm_num)
  have hpos : cfg.MIN_ACCOUNT_AGE_DAYS ≠ 0 ↔ 0 < cfg.MIN_ACCOUNT_AGE_DAYS :=
    ⟨fun h => lt_of_le_of_ne hcfg (Ne.symm h), fun h => ne_of_gt h⟩
  have main : isRealEnough cfg now member = false ↔
      (member.user.bot = true ∨
       (0 < cfg.MIN_ACCOUNT_AGE_DAYS ∧
         ((now - member.user.createdTimestamp : Int) : ℚ) <
           cfg.MIN_ACCOUNT_AGE_DAYS * 86400000) ∨
       (SuspiciousName member.user.username ∧ truthy member.user.avatar = false)) := by
    rw [← isSuspiciousUsername_iff, ← hdiv, ← hpos]
    exact isRealEnough_shape _ _ _ _
  refine ⟨main, ?_, ?_⟩
  · rw [← main]; cases isRealEnough cfg now member <;> simp
  · intro hb hy _ ha
    have : ¬ isRealEnough cfg now member = false := by
      rw [main]
      rintro (h | h | h)
      · rw [hb] at h; exact Bool.noConfusion h
      · exact hy h
      · rw [ha] at h; exact Bool.noConfusion h.2
    cases h : isRealEnough cfg now member
    · exact absurd h this
    · rfl

/-- Witness for C7: with a minimum age of 7 days, the ten-day-old account
"User12345" with a custom avatar is classified real. -/
theorem isRealEnough_false_iff_witness :
    (0 : ℚ) ≤ 7 ∧
    isRealEnough
      { GUILD_ID := "g", ROLE_BRONZE_ID := "r1", ROLE_PRATA_ID := "r2", ROLE_OURO_ID := "r3",
        ROLE_PLATINA_ID := "r4", ROLE_DIAMANTE_ID := "r5", MIN_ACCOUNT_AGE_DAYS := 7,
        MIN_STAY_HOURS := 1 }
      864000000
      { user := { id := "m", bot := false, createdTimestamp := 0,
                  username := some "User12345", avatar := some "a1b2" },
        guildId := "g" } = true :=
  ⟨by norm_num,
   (isRealEnough_false_iff
      { GUILD_ID := "g", ROLE_BRONZE_ID := "r1", ROLE_PRATA_ID := "r2", ROLE_OURO_ID := "r3",
        ROLE_PLATINA_ID := "r4", ROLE_DIAMANTE_ID := "r5", MIN_ACCOUNT_AGE_DAYS := 7,
        MIN_STAY_HOURS := 1 }
      864000000
      { user := { id := "m", bot := false, createdTimestamp := 0,
                  username := some "User12345", avatar := some "a1b2" },
        guildId := "g" } (by norm_num)).2.2 rfl (by norm_num)
      ((isSuspiciousUsername_iff _).mp (by decide)) (by decide)⟩

/-- C5: on every non-negative count `rankNameByInvites` follows the half-open
bands: below 1 no rank ("SEM RANK"), 1 to 13 BRONZE, 14 to 29 PRATA, 30 to 59
OURO, 60 to 99 PLATINA, from 100 on DIAMANTE; with the nine boundary values. -/
theorem rankNameByInvites_bands (n : Nat) :
    ((n : Int) < 1 → rankNameByInvites n = "SEM RANK") ∧
    (1 ≤ (n : Int) ∧ (n : Int) < 14 → rankNameByInvites n = "BRONZE") ∧
    (14 ≤ (n : Int) ∧ (n : Int) < 30 → rankNameByInvites n = "PRATA") ∧
    (30 ≤ (n : Int) ∧ (n : Int) < 60 → rankNameByInvites n = "OURO") ∧
    (60 ≤ (n : Int) ∧ (n : Int) < 100 → rankNameByInvites n = "PLATINA") ∧
    (100 ≤ (n : Int) → rankNameByInvites n = "DIAMANTE") ∧
    rankNameByInvites 0 = "SEM RANK" ∧ rankNameByInvites 13 = "BRONZE" ∧
    rankNameByInvites 14 = "PRATA" ∧ rankNameByInvites 29 = "PRATA" ∧
    rankNameByInvites 30 = "OURO" ∧ rankNameByInvites 59 = "OURO" ∧
    rankNameByInvites 60 = "PLATINA" ∧ rankNameByInvites 99 = "PLATINA" ∧
    rankNameByInvites 100 = "DIAMANTE" := by
  refine ⟨?_, ?_, ?_, ?_, ?_, ?_, ?_⟩
  · intro h; unfold rankNameByInvites; split_ifs <;> first | rfl | omega
  · intro h; unfold rankNameByInvites; split_ifs <;> first | rfl | omega
  · intro h; unfold rankNameByInvites; split_ifs <;> first | rfl | omega
  · intro h; unfold rankNameByInvites; split_ifs <;> first | rfl | omega
  · intro h; unfold rankNameByInvites; split_ifs <;> first | rfl | omega
  · intro h; unfold rankNameByInvites; split_ifs <;> rfl
  · decide

/-- Witness for C5: the count 13 lies in the BRONZE band. -/
theorem rankNameByInvites_bands_witness :
    (1 ≤ ((13 : Nat) : Int) ∧ ((13 : Nat) : Int) < 14) ∧
      rankNameByInvites ((13 : Nat) : Int) = "BRONZE" :=
  ⟨by decide, (rankNameByInvites_bands 13).2.1 (by decide)⟩

/-- C6: below 100, `nextRankInfo` names the first step of `steps` (the lowest
threshold) that is strictly above the count, and `missing` is that threshold
minus the count, so `missing ≥ 1` and the rank of `count + missing` is the named
one; from 100 on it returns no next rank and `missing = 0`. -/
theorem nextRankInfo_spec (n : Nat) :
    ((n : Int) < 100 →
      ∃ s ∈ steps, (n : Int) < s.min ∧
        (∀ t ∈ steps, (n : Int) < t.min → s.min ≤ t.min) ∧
        nextRankInfo n = { next := some s.name, missing := s.min - n } ∧
        1 ≤ (nextRankInfo n).missing ∧
        rankNameByInvites ((n : Int) + (nextRankInfo n).missing) = s.name) ∧
    (100 ≤ (n : Int) → nextRankInfo n = { next := none, missing := 0 }) ∧
    nextRankInfo 0 = { next := some "BRONZE", missing := 1 } ∧
    nextRankInfo 100 = { next := none, missing := 0 } := by
  refine ⟨?_, ?_, by decide, by decide⟩
  · intro h
    have key : ∀ s : RankStep, s ∈ steps → (n : Int) < s.min →
        (∀ t ∈ steps, (n : Int) < t.min → s.min ≤ t.min) →
        nextRankInfo n = { next := some s.name, missing := s.min - n } →
        rankNameByInvites s.min = s.name →
        ∃ s ∈ steps, (n : Int) < s.min ∧
          (∀ t ∈ steps, (n : Int) < t.min → s.min ≤ t.min) ∧
          nextRankInfo n = { next := some s.name, missing := s.min - n } ∧
          1 ≤ (nextRankInfo n).missing ∧
          rankNameByInvites ((n : Int) + (nextRankInfo n).missing) = s.name := by
      intro s hs hlt hmin heq hname
      refine ⟨s, hs, hlt, hmin, heq, ?_, ?_⟩
      · rw [heq]; show 1 ≤ s.min - n; omega
      · rw [heq]; show rankNameByInvites ((n : Int) + (s.min - n)) = s.name
        rw [show (n : Int) + (s.min - n) = s.min by omega]; exact hname
    have hloop : nextRankInfo n = nextRankLoop n steps := by
      unfold nextRankInfo; rw [if_neg (by omega)]
    by_cases h1 : (n : Int) < 1
    · refine key ⟨"BRONZE", 1⟩ (by simp [steps]) h1 ?_ ?_ (by decide)
      · intro t ht; simp [steps] at ht; rcases ht with rfl | rfl | rfl | rfl | rfl <;> simp
      · rw [hloop]; simp [steps, nextRankLoop, h1]
    by_cases h14 : (n : Int) < 14
    · refine key ⟨"PRATA", 14⟩ (by simp [steps]) h14 ?_ ?_ (by decide)
      · intro t ht; simp [steps] at ht
        rcases ht with rfl | rfl | rfl | rfl | rfl <;> simp
        omega
      · rw [hloop]; simp [steps, nextRankLoop, h1, h14]
    by_cases h30 : (n : Int) < 30
    · refine key ⟨"OURO", 30⟩ (by simp [steps]) h30 ?_ ?_ (by decide)
      · intro t ht; simp [steps] at ht
        rcases ht with rfl | rfl | rfl | rfl | rfl <;> simp <;> omega
      · rw [hloop]; simp [steps, nextRankLoop, h1, h14, h30]
    by_cases h60 : (n : Int) < 60
    · refine key ⟨"PLATINA", 60⟩ (by simp [steps]) h60 ?_ ?_ (by decide)
      · intro t ht; simp [steps] at ht
        rcases ht with rfl | rfl | rfl | rfl | rfl <;> simp <;> omega
      · rw [hloop]; simp [steps, nextRankLoop, h1, h14, h30, h60]
    · refine key ⟨"DIAMANTE", 100⟩ (by simp [steps]) h ?_ ?_ (by decide)
      · intro t ht; simp [steps] at ht
        rcases ht with rfl | rfl | rfl | rfl | rfl <;> simp <;> omega
      · rw [hloop]; simp [steps, nextRankLoop, h1, h14, h30, h60, h]
  · intro h; unfold nextRankInfo; rw [if_pos (by omega)]

/-- Witness for C6: at count 13 the next rank is PRATA, one invite away. -/
theorem nextRankInfo_spec_witness :
    ((13 : Nat) : Int) < 100 ∧
      ∃ s ∈ steps, ((13 : Nat) : Int) < s.min ∧
        (∀ t ∈ steps, ((13 : Nat) : Int) < t.min → s.min ≤ t.min) ∧
        nextRankInfo (13 : Nat) = { next := some s.name, missing := s.min - (13 : Nat) } ∧
        1 ≤ (nextRankInfo (13 : Nat)).missing ∧
        rankNameByInvites (((13 : Nat) : Int) + (nextRankInfo (13 : Nat)).missing) = s.name :=
  ⟨by decide, (nextRankInfo_spec 13).1 (by decide)⟩

/-! ### The arrival handler -/

theorem hasJoin_eq_false_iff (db : Db) (m : String) :
    hasJoin db m = false ↔ ∀ r ∈ db.joins, r.member_id ≠ m := by
  unfold hasJoin
  cases hf : db.joins.find? (fun r => decide (r.member_id = m)) with
  | none =>
    rw [List.find?_eq_none] at hf
    simp only [Option.isSome_none, true_iff]
    intro r hr
    simpa using hf r hr
  | some x =>
    simp only [Option.isSome_some, Bool.true_eq_false, false_iff, not_forall]
    exact ⟨x, List.mem_of_find?_eq_some hf, by simpa using List.find?_some hf⟩

theorem onGuildMemberAdd_db_cases (cfg : Config) (s : State) (member : Member)
    (fetched : Option (List Invite)) (nowCheck nowInsert : Int) :
    (onGuildMemberAdd cfg s member fetched nowCheck nowInsert).db = s.db ∨
    ∃ inviter code, hasJoin s.db member.id = false ∧
      ((isRealEnough cfg nowCheck member = false ∧
        (onGuildMemberAdd cfg s member fetched nowCheck nowInsert).db =
          { s.db with joins := s.db.joins ++
              [⟨member.id, some inviter, some code, nowInsert, 0, 0⟩] }) ∨
       (isRealEnough cfg nowCheck member = true ∧
        (onGuildMemberAdd cfg s member fetched nowCheck nowInsert).db =
          incInviter { s.db with joins := s.db.joins ++
              [⟨member.id, some inviter, some code, nowInsert, 1, 0⟩] } inviter)) := by
  generalize hres : onGuildMemberAdd cfg s member fetched nowCheck nowInsert = res
  unfold onGuildMemberAdd at hres
  by_cases hg : member.guildId ≠ cfg.GUILD_ID
  · rw [if_pos hg] at hres; subst hres; exact Or.inl rfl
  · rw [if_neg hg] at hres
    cases fetched with
    | none => simp only at hres; subst hres; exact Or.inl rfl
    | some newInvites =>
      simp only at hres
      cases hold : cacheGet s.invitesCache member.guildId with
      | none => rw [hold] at hres; simp only at hres; subst hres; exact Or.inl rfl
      | some old =>
        rw [hold] at hres
        simp only at hres
        cases hused : findUsed old newInvites with
        | none => rw [hused] at hres; simp only at hres; subst hres; exact Or.inl rfl
        | some used =>
          rw [hused] at hres
          simp only at hres
          cases hown : getPersonalInviteOwnerByCode s.db used.code with
          | none => rw [hown] at hres; simp only at hres; subst hres; exact Or.inl rfl
          | some owner =>
            rw [hown] at hres
            simp only at hres
            by_cases he : owner.user_id = ""
            · rw [if_pos he] at hres; subst hres; exact Or.inl rfl
            · rw [if_neg he] at hres
              by_cases hj : hasJoin s.db member.id = true
              · rw [if_pos hj] at hres; subst hres; exact Or.inl rfl
              · rw [if_neg hj] at hres
                have hjf : hasJoin s.db member.id = false := by
                  cases h : hasJoin s.db member.id
                  · rfl
                  · exact absurd h hj
                right
                refine ⟨owner.user_id, used.code, hjf, ?_⟩
                cases hreal : isRealEnough cfg nowCheck member
                · left
                  refine ⟨rfl, ?_⟩
                  simp [insertJoin, hjf, hreal] at hres
                  subst hres
                  rfl
                · right
                  refine ⟨rfl, ?_⟩
                  simp [insertJoin, hjf, hreal] at hres
                  subst hres
                  rfl

theorem incInviter_joins (db : Db) (u : String) : (incInviter db u).joins = db.joins := by
  unfold incInviter; split_ifs <;> rfl

theorem incInviter_personal_invites (db : Db) (u : String) :
    (incInviter db u).personal_invites = db.personal_invites := by
  unfold incInviter; split_ifs <;> rfl

theorem incInviter_stats_congr (db db2 : Db) (u : String)
    (h : db.inviter_stats = db2.inviter_stats) :
    (incInviter db u).inviter_stats = (incInviter db2 u).inviter_stats := by
  unfold incInviter; rw [h]; split_ifs <;> rfl

theorem onGuildMemberAdd_of_hasJoin (cfg : Config) (s : State) (member : Member)
    (fetched : Option (List Invite)) (nowCheck nowInsert : Int)
    (h : hasJoin s.db member.id = true) :
    (onGuildMemberAdd cfg s member fetched nowCheck nowInsert).db = s.db := by
  rcases onGuildMemberAdd_db_cases cfg s member fetched nowCheck nowInsert with h1 | ⟨_, _, h2, _⟩
  · exact h1
  · rw [h] at h2; exact Bool.noConfusion h2

theorem hasJoin_after_append (db : Db) (row : JoinRow) :
    hasJoin { db with joins := db.joins ++ [row] } row.member_id = true := by
  unfold hasJoin
  rw [Option.isSome_iff_exists]
  cases hf : (db.joins ++ [row]).find? (fun r => decide (r.member_id = row.member_id)) with
  | some x => exact ⟨x, rfl⟩
  | none =>
    rw [List.find?_eq_none] at hf
    have := hf row (by simp)
    simp at this

/-- C2: an arrival of a member who already has a `joins` row changes nothing
in the database; hence, for two arrivals of the same member id handled one
after the other from any state, whatever is fetched and however the member is
classified, the `joins` table ends as it was or with one new row for that
member, the counters end as they were or after one `incInviter`, the second
arrival changes nothing once a row exists, and a member without a row before
has at most one row afterwards. -/
theorem arrival_idempotent (cfg : Config) (s : State) (member : Member)
    (fetched : Option (List Invite)) (nowCheck nowInsert : Int) :
    (hasJoin s.db member.id = true →
      (onGuildMemberAdd cfg s member fetched nowCheck nowInsert).db = s.db) ∧
    (∀ (member2 : Member) (fetched2 : Option (List Invite)) (nowCheck2 nowInsert2 : Int),
      member2.id = member.id →
      ((onGuildMemberAdd cfg (onGuildMemberAdd cfg s member fetched nowCheck nowInsert)
          member2 fetched2 nowCheck2 nowInsert2).db.joins = s.db.joins ∨
        ∃ row : JoinRow, row.member_id = member.id ∧ row.reversed = 0 ∧
          (onGuildMemberAdd cfg (onGuildMemberAdd cfg s member fetched nowCheck nowInsert)
            member2 fetched2 nowCheck2 nowInsert2).db.joins = s.db.joins ++ [row]) ∧
      ((onGuildMemberAdd cfg (onGuildMemberAdd cfg s member fetched nowCheck nowInsert)
          member2 fetched2 nowCheck2 nowInsert2).db.inviter_stats = s.db.inviter_stats ∨
        ∃ u, (onGuildMemberAdd cfg (onGuildMemberAdd cfg s member fetched nowCheck nowInsert)
          member2 fetched2 nowCheck2 nowInsert2).db.inviter_stats =
            (incInviter s.db u).inviter_stats) ∧
      (hasJoin (onGuildMemberAdd cfg s member fetched nowCheck nowInsert).db member.id = true →
        (onGuildMemberAdd cfg (onGuildMemberAdd cfg s member fetched nowCheck nowInsert)
          member2 fetched2 nowCheck2 nowInsert2).db =
        (onGuildMemberAdd cfg s member fetched nowCheck nowInsert).db) ∧
      (hasJoin s.db member.id = false →
        (onGuildMemberAdd cfg (onGuildMemberAdd cfg s member fetched nowCheck nowInsert)
          member2 fetched2 nowCheck2 nowInsert2).db.joins.countP
            (fun r => r.member_id = member.id) ≤ 1)) := by
  refine ⟨onGuildMemberAdd_of_hasJoin cfg s member fetched nowCheck nowInsert, ?_⟩
  intro member2 fetched2 nowCheck2 nowInsert2 hid
  have hsecond : hasJoin (onGuildMemberAdd cfg s member fetched nowCheck nowInsert).db
        member.id = true →
      (onGuildMemberAdd cfg (onGuildMemberAdd cfg s member fetched nowCheck nowInsert)
          member2 fetched2 nowCheck2 nowInsert2).db =
        (onGuildMemberAdd cfg s member fetched nowCheck nowInsert).db := by
    intro h
    exact onGuildMemberAdd_of_hasJoin cfg _ member2 fetched2 nowCheck2 nowInsert2
      (by rw [hid]; exact h)
  -- the shape of the database after one arrival of this member id, from any state
  have shape : ∀ (t : State) (mb : Member) (f : Option (List Invite)) (a b : Int),
      mb.id = member.id →
      (onGuildMemberAdd cfg t mb f a b).db = t.db ∨
      (hasJoin t.db member.id = false ∧
        hasJoin (onGuildMemberAdd cfg t mb f a b).db member.id = true ∧
        (∃ row : JoinRow, row.member_id = member.id ∧ row.reversed = 0 ∧
          (onGuildMemberAdd cfg t mb f a b).db.joins = t.db.joins ++ [row]) ∧
        ((onGuildMemberAdd cfg t mb f a b).db.inviter_stats = t.db.inviter_stats ∨
          ∃ u, (onGuildMemberAdd cfg t mb f a b).db.inviter_stats =
            (incInviter t.db u).inviter_stats)) := by
    intro t mb f a b hmb
    rcases onGuildMemberAdd_db_cases cfg t mb f a b with h | ⟨inviter, code, hj, h⟩
    · exact Or.inl h
    · right
      rw [hmb] at hj h
      refine ⟨hj, ?_⟩
      rcases h with ⟨_, h⟩ | ⟨_, h⟩
      · rw [h]
        exact ⟨hasJoin_after_append t.db ⟨member.id, some inviter, some code, b, 0, 0⟩,
          ⟨_, rfl, rfl, rfl⟩, Or.inl rfl⟩
      · rw [h]
        refine ⟨?_, ⟨⟨member.id, some inviter, some code, b, 1, 0⟩, rfl, rfl, ?_⟩,
          Or.inr ⟨inviter, incInviter_stats_congr _ _ _ rfl⟩⟩
        · have := hasJoin_after_append t.db ⟨member.id, some inviter, some code, b, 1, 0⟩
          unfold hasJoin at this ⊢
          rw [incInviter_joins]
          exact this
        · rw [incInviter_joins]
  have hcount : ∀ row : JoinRow, row.member_id = member.id → hasJoin s.db member.id = false →
      (s.db.joins ++ [row]).countP (fun r => decide (r.member_id = member.id)) ≤ 1 := by
    intro row hrow hj
    rw [hasJoin_eq_false_iff] at hj
    rw [List.countP_append, List.countP_eq_zero.mpr (by simpa using hj)]
    simp [List.countP_cons, hrow]
  have hcount0 : hasJoin s.db member.id = false →
      s.db.joins.countP (fun r => decide (r.member_id = member.id)) ≤ 1 := by
    intro hj
    rw [hasJoin_eq_false_iff] at hj
    rw [List.countP_eq_zero.mpr (by simpa using hj)]
    exact Nat.zero_le _
  rcases shape s member fetched nowCheck nowInsert rfl with h1 | ⟨hj1, hj1', ⟨row, hr, hr0, hrow⟩, hst⟩
  · -- the first arrival recorded nothing
    have hdb : (onGuildMemberAdd cfg s member fetched nowCheck nowInsert).db = s.db := h1
    rcases shape (onGuildMemberAdd cfg s member fetched nowCheck nowInsert) member2 fetched2
        nowCheck2 nowInsert2 hid with h2 | ⟨hj2, _, ⟨row2, hr2, hr20, hrow2⟩, hst2⟩
    · refine ⟨Or.inl (by rw [h2, hdb]), Or.inl (by rw [h2, hdb]), hsecond, ?_⟩
      intro hj; rw [h2, hdb]; exact hcount0 hj
    · refine ⟨Or.inr ⟨row2, hr2, hr20, by rw [hrow2, hdb]⟩, ?_, hsecond, ?_⟩
      · rcases hst2 with h | ⟨u, h⟩
        · exact Or.inl (by rw [h, hdb])
        · exact Or.inr ⟨u, by rw [h]; exact incInviter_stats_congr _ _ _ (by rw [hdb])⟩
      · intro hj; rw [hrow2, hdb]; exact hcount row2 hr2 hj
  · -- the first arrival recorded a row, the second changes nothing
    have h2 := hsecond hj1'
    refine ⟨Or.inr ⟨row, hr, hr0, by rw [h2, hrow]⟩, ?_, hsecond, ?_⟩
    · rcases hst with h | ⟨u, h⟩
      · exact Or.inl (by rw [h2, h])
      · exact Or.inr ⟨u, by rw [h2, h]⟩
    · intro hj; rw [h2, hrow]; exact hcount row hr hj

/-- Witness for C2: in the worked example "m1" already has a row; a second
arrival through the same invite, now at 2 uses, leaves the database as it is. -/
theorem arrival_idempotent_witness :
    hasJoin demoState1.db demoMember.id = true ∧
    (onGuildMemberAdd demoConfig demoState1 demoMember (some [⟨"CODE", some 2⟩])
      (demoT0 + 5) (demoT0 + 5)).db = demoState1.db :=
  ⟨by decide,
   (arrival_idempotent demoConfig demoState1 demoMember (some [⟨"CODE", some 2⟩])
      (demoT0 + 5) (demoT0 + 5)).1 (by decide)⟩

/-! ### The departure handler -/

theorem leftTooFast_iff (cfg : Config) (now joinedAt : Int) (hM : 0 ≤ cfg.MIN_STAY_HOURS) :
    leftTooFast cfg now joinedAt = true ↔
      (0 < cfg.MIN_STAY_HOURS ∧
        ((now - joinedAt : Int) : ℚ) < cfg.MIN_STAY_HOURS * 3600000) := by
  have hdiv : (((now - joinedAt : Int) : ℚ) / 3600000 < cfg.MIN_STAY_HOURS) ↔
      (((now - joinedAt : Int) : ℚ) < cfg.MIN_STAY_HOURS * 3600000) :=
    div_lt_iff₀ (by norm_num)
  unfold leftTooFast
  by_cases h0 : cfg.MIN_STAY_HOURS = 0
  · rw [if_pos h0]
    constructor
    · intro h; exact Bool.noConfusion h
    · intro h; rw [h0] at h; exact absurd h.1 (lt_irrefl _)
  · rw [if_neg h0, decide_eq_true_eq, hdiv]
    exact ⟨fun h => ⟨lt_of_le_of_ne hM (Ne.symm h0), h⟩, fun h => h.2⟩

theorem onGuildMemberRemove_cases (cfg : Config) (s : State) (member : Member) (now : Int) :
    (onGuildMemberRemove cfg s member now = s ∧
      ¬ (member.guildId = cfg.GUILD_ID ∧ ∃ row, getJoinRow s.db member.id = some row ∧
          row.counted_real = 1 ∧ row.reversed ≠ 1 ∧
          leftTooFast cfg now row.joined_at = true)) ∨
    (∃ row, member.guildId = cfg.GUILD_ID ∧ getJoinRow s.db member.id = some row ∧
      row.counted_real = 1 ∧ row.reversed ≠ 1 ∧ leftTooFast cfg now row.joined_at = true ∧
      onGuildMemberRemove cfg s member now =
        { s with db := markReversed (decInviter s.db row.inviter_id) member.id }) := by
  generalize hres : onGuildMemberRemove cfg s member now = res
  unfold onGuildMemberRemove at hres
  by_cases hg : member.guildId ≠ cfg.GUILD_ID
  · rw [if_pos hg] at hres
    exact Or.inl ⟨hres.symm, fun h => hg h.1⟩
  · rw [if_neg hg] at hres
    cases hrow : getJoinRow s.db member.id with
    | none =>
      rw [hrow] at hres
      simp only at hres
      refine Or.inl ⟨hres.symm, ?_⟩
      rintro ⟨_, row, h, _⟩
      exact Option.noConfusion h
    | some row =>
      rw [hrow] at hres
      simp only at hres
      by_cases hc : row.counted_real ≠ 1
      · rw [if_pos hc] at hres
        refine Or.inl ⟨hres.symm, ?_⟩
        rintro ⟨_, row2, h, h1, _⟩
        cases h
        exact hc h1
      · rw [if_neg hc] at hres
        by_cases hr : row.reversed = 1
        · rw [if_pos hr] at hres
          refine Or.inl ⟨hres.symm, ?_⟩
          rintro ⟨_, row2, h, _, h2, _⟩
          cases h
          exact h2 hr
        · rw [if_neg hr] at hres
          cases hl : leftTooFast cfg now row.joined_at
          · rw [hl] at hres
            simp only [Bool.not_false, if_true] at hres
            refine Or.inl ⟨hres.symm, ?_⟩
            rintro ⟨_, row2, h, _, _, h3⟩
            cases h
            rw [hl] at h3
            exact Bool.noConfusion h3
          · rw [hl] at hres
            simp only [Bool.not_true, Bool.false_eq_true, if_false] at hres
            exact Or.inr ⟨row, not_not.mp hg, rfl, not_not.mp hc, hr, hl, hres.symm⟩

theorem getJoinRow_markReversed (db : Db) (m : String) :
    getJoinRow (markReversed db m) m =
      (getJoinRow db m).map (fun r => { r with reversed := 1 }) := by
  unfold getJoinRow markReversed
  simp only
  rw [find?_map_keep _ _ (by intro a; by_cases h : a.member_id = m <;> simp [h])]
  cases h : db.joins.find? (fun r => decide (r.member_id = m)) with
  | none => rfl
  | some r =>
    have hr : r.member_id = m := by simpa using List.find?_some h
    simp [hr]

/-- C3: for a departure in the tracked guild, with a non-negative minimum stay
and reversed flags that are 0 or 1, the reversal is applied (the member's row
goes from `reversed = 0` to `reversed = 1` and the counters are those after one
`decInviter` of the row's inviter, who ends at `max (old - 1) 0`) exactly when a
row exists, is counted, is not reversed, `MIN_STAY_HOURS > 0` and the stay was
strictly shorter than that many hours; otherwise the state is unchanged.  In
the worked example (joined at T0, minimum stay 1 hour) a departure at T0 + 59
minutes reverses and takes the counter from 1 to 0, a repeated departure then
changes nothing, and a departure at T0 + 61 minutes changes nothing. -/
theorem departure_reversal (cfg : Config) (s : State) (member : Member) (now : Int)
    (hg : member.guildId = cfg.GUILD_ID) (hM : 0 ≤ cfg.MIN_STAY_HOURS)
    (hflag : ∀ r ∈ s.db.joins, r.reversed = 0 ∨ r.reversed = 1) :
    (ReversalApplied s.db (onGuildMemberRemove cfg s member now).db member.id ↔
      ReversalEligible cfg s.db member.id now) ∧
    (ReversalEligible cfg s.db member.id now →
      ∀ row, getJoinRow s.db member.id = some row →
        (onGuildMemberRemove cfg s member now).db.joins = (markReversed s.db member.id).joins ∧
        (∀ u, row.inviter_id = some u →
          inviterCount (onGuildMemberRemove cfg s member now).db u =
            max (inviterCount s.db u - 1) 0) ∧
        (∀ v, row.inviter_id ≠ some v →
          getInviterCount (onGuildMemberRemove cfg s member now).db v =
            getInviterCount s.db v)) ∧
    (¬ ReversalEligible cfg s.db member.id now → onGuildMemberRemove cfg s member now = s) ∧
    ((onGuildMemberAdd demoConfig demoState0 demoMember (some [⟨"CODE", some 1⟩])
        demoT0 demoT0).db = demoState1.db ∧
     (onGuildMemberRemove demoConfig demoState1 demoMember (demoT0 + 59 * 60000)).db =
        { demoState1.db with
          joins := [⟨"m1", some "inviter", some "CODE", demoT0, 1, 1⟩],
          inviter_stats := [⟨"inviter", 0⟩] } ∧
     (onGuildMemberRemove demoConfig
        (onGuildMemberRemove demoConfig demoState1 demoMember (demoT0 + 59 * 60000))
        demoMember (demoT0 + 59 * 60000 + 1)).db =
        (onGuildMemberRemove demoConfig demoState1 demoMember (demoT0 + 59 * 60000)).db ∧
     (onGuildMemberRemove demoConfig demoState1 demoMember (demoT0 + 61 * 60000)).db =
        demoState1.db) := by
  have hiff_row : ∀ row, getJoinRow s.db member.id = some row →
      ((row.counted_real = 1 ∧ row.reversed ≠ 1 ∧ leftTooFast cfg now row.joined_at = true) ↔
        (row.counted_real = 1 ∧ row.reversed = 0 ∧ 0 < cfg.MIN_STAY_HOURS ∧
          ((now - row.joined_at : Int) : ℚ) < cfg.MIN_STAY_HOURS * 3600000)) := by
    intro row hrow
    have hmem : row ∈ s.db.joins := List.mem_of_find?_eq_some hrow
    have hrev : row.reversed ≠ 1 ↔ row.reversed = 0 := by
      rcases hflag row hmem with h | h
      · rw [h]; simp
      · rw [h]; simp
    rw [hrev, leftTooFast_iff cfg now row.joined_at hM]
  refine ⟨?_, ?_, ?_, by decide!⟩
  · rcases onGuildMemberRemove_cases cfg s member now with ⟨heq, hno⟩ | ⟨row, _, hrow, h1, h2, h3, heq⟩
    · rw [heq]
      constructor
      · rintro ⟨row, hrow, h0, hrow2, _⟩
        rw [hrow] at hrow2
        have : row.reversed = 1 := by
          have := congrArg JoinRow.reversed (Option.some.inj hrow2)
          simpa using this
        rw [h0] at this
        exact absurd this (by decide)
      · rintro ⟨row, hrow, hrest⟩
        exact absurd ⟨hg, row, hrow, (hiff_row row hrow).mpr hrest⟩ hno
    · rw [heq]
      have hel := (hiff_row row hrow).mp ⟨h1, h2, h3⟩
      constructor
      · intro _
        exact ⟨row, hrow, hel⟩
      · intro _
        refine ⟨row, hrow, hel.2.1, ?_, rfl⟩
        show getJoinRow (markReversed (decInviter s.db row.inviter_id) member.id) member.id = _
        rw [getJoinRow_markReversed]
        have : getJoinRow (decInviter s.db row.inviter_id) member.id = some row := by
          cases hi : row.inviter_id <;> exact hrow
        rw [this]
        rfl
  · rintro ⟨row0, hrow0, hel⟩ row hrow
    rw [hrow0] at hrow
    cases hrow
    rcases onGuildMemberRemove_cases cfg s member now with ⟨_, hno⟩ | ⟨row, _, hrow, h1, h2, h3, heq⟩
    · exact absurd ⟨hg, row0, hrow0, (hiff_row row0 hrow0).mpr hel⟩ hno
    · rw [hrow0] at hrow
      cases hrow
      rw [heq]
      refine ⟨?_, ?_, ?_⟩
      · show (markReversed (decInviter s.db row0.inviter_id) member.id).joins = _
        cases hi : row0.inviter_id <;> rfl
      · intro u hu
        show inviterCount (decInviter s.db row0.inviter_id) u = _
        rw [hu]
        exact inviterCount_decInviter_same s.db u
      · intro v hv
        show getInviterCount (decInviter s.db row0.inviter_id) v = _
        exact getInviterCount_decInviter_other s.db row0.inviter_id v hv
  · intro hne
    rcases onGuildMemberRemove_cases cfg s member now with ⟨heq, _⟩ | ⟨row, _, hrow, h1, h2, h3, _⟩
    · exact heq
    · exact absurd ⟨row, hrow, (hiff_row row hrow).mp ⟨h1, h2, h3⟩⟩ hne

/-- Witness for C3: the worked example, a departure 59 minutes after the join
with a minimum stay of one hour; the reversal is applied. -/
theorem departure_reversal_witness :
    demoMember.guildId = demoConfig.GUILD_ID ∧ 0 ≤ demoConfig.MIN_STAY_HOURS ∧
    (∀ r ∈ demoState1.db.joins, r.reversed = 0 ∨ r.reversed = 1) ∧
    ReversalEligible demoConfig demoState1.db demoMember.id (demoT0 + 59 * 60000) ∧
    ReversalApplied demoState1.db
      (onGuildMemberRemove demoConfig demoState1 demoMember (demoT0 + 59 * 60000)).db
      demoMember.id :=
  have hel : ReversalEligible demoConfig demoState1.db demoMember.id (demoT0 + 59 * 60000) :=
    ⟨⟨"m1", some "inviter", some "CODE", demoT0, 1, 0⟩, by decide, by decide, by decide,
      by decide!, by decide!⟩
  ⟨by decide, by decide!, by decide, hel,
   (departure_reversal demoConfig demoState1 demoMember (demoT0 + 59 * 60000)
      (by decide) (by decide!) (by decide)).1.mpr hel⟩

/-! ### The counter follows the ledger -/

theorem decInviter_joins (db : Db) (u : Option String) : (decInviter db u).joins = db.joins := by
  cases u <;> rfl

theorem countP_markReversed (p : JoinRow → Bool) (m : String)
    (hp : ∀ r : JoinRow, p { r with reversed := 1 } = false) :
    ∀ (l : List JoinRow), (l.map JoinRow.member_id).Nodup →
      ∀ row, l.find? (fun r => decide (r.member_id = m)) = some row →
        (l.map (fun r => if r.member_id = m then { r with reversed := 1 } else r)).countP p +
          (if p row = true then 1 else 0) = l.countP p := by
  intro l
  induction l with
  | nil => intro _ row h; exact Option.noConfusion h
  | cons a l ih =>
    intro hnd row hf
    rw [List.map_cons, List.nodup_cons] at hnd
    by_cases ha : a.member_id = m
    · have hrow : row = a := by
        rw [List.find?_cons] at hf
        simp only [ha, decide_True] at hf
        exact (Option.some.inj hf).symm
      have hrest : l.map (fun r => if r.member_id = m then { r with reversed := 1 } else r) = l := by
        conv_rhs => rw [← List.map_id l]
        apply List.map_congr_left
        intro r hr
        have hne : r.member_id ≠ m := by
          intro h
          apply hnd.1
          rw [ha, ← h]
          exact List.mem_map_of_mem _ hr
        simp [hne]
      rw [List.map_cons, hrest, if_pos ha, List.countP_cons, List.countP_cons, hp, hrow]
      simp
    · have hf2 : l.find? (fun r => decide (r.member_id = m)) = some row := by
        rw [List.find?_cons] at hf
        simpa [ha] using hf
      have := ih hnd.2 row hf2
      rw [List.map_cons, if_neg ha, List.countP_cons, List.countP_cons]
      omega

theorem ledgerInv_add (cfg : Config) (s : State) (member : Member)
    (fetched : Option (List Invite)) (nowCheck nowInsert : Int) (h : LedgerInv s.db) :
    LedgerInv (onGuildMemberAdd cfg s member fetched nowCheck nowInsert).db := by
  obtain ⟨hnd, hflag, hcount⟩ := h
  rcases onGuildMemberAdd_db_cases cfg s member fetched nowCheck nowInsert with
    h1 | ⟨inviter, code, hj, ⟨_, h2⟩ | ⟨_, h2⟩⟩
  · rw [h1]; exact ⟨hnd, hflag, hcount⟩
  · rw [h2]
    rw [hasJoin_eq_false_iff] at hj
    refine ⟨?_, ?_, ?_⟩
    · show ((s.db.joins ++ [_]).map JoinRow.member_id).Nodup
      rw [List.map_append, List.nodup_append]
      refine ⟨hnd, by simp, ?_⟩
      intro x hx hx2
      simp only [List.map_cons, List.map_nil, List.mem_singleton] at hx2
      obtain ⟨r, hr, rfl⟩ := List.mem_map.mp hx
      exact hj r hr hx2
    · intro r hr
      have hr2 : r ∈ s.db.joins ++ [⟨member.id, some inviter, some code, nowInsert, 0, 0⟩] := hr
      rw [List.mem_append, List.mem_singleton] at hr2
      rcases hr2 with hr2 | rfl
      · exact hflag r hr2
      · exact Or.inl rfl
    · intro u
      show inviterCount s.db u = ((List.countP _ (s.db.joins ++ [_]) : Nat) : Int)
      rw [hcount u, List.countP_append]
      simp [activeJoins, List.countP_cons]
  · rw [h2]
    rw [hasJoin_eq_false_iff] at hj
    refine ⟨?_, ?_, ?_⟩
    · rw [incInviter_joins]
      show ((s.db.joins ++ [_]).map JoinRow.member_id).Nodup
      rw [List.map_append, List.nodup_append]
      refine ⟨hnd, by simp, ?_⟩
      intro x hx hx2
      simp only [List.map_cons, List.map_nil, List.mem_singleton] at hx2
      obtain ⟨r, hr, rfl⟩ := List.mem_map.mp hx
      exact hj r hr hx2
    · intro r hr
      rw [incInviter_joins] at hr
      have hr2 : r ∈ s.db.joins ++ [⟨member.id, some inviter, some code, nowInsert, 1, 0⟩] := hr
      rw [List.mem_append, List.mem_singleton] at hr2
      rcases hr2 with hr2 | rfl
      · exact hflag r hr2
      · exact Or.inl rfl
    · intro u
      have hact : activeJoins (incInviter { s.db with joins := s.db.joins ++
            [⟨member.id, some inviter, some code, nowInsert, 1, 0⟩] } inviter) u =
          activeJoins s.db u + (if inviter = u then 1 else 0) := by
        unfold activeJoins
        rw [incInviter_joins]
        show List.countP _ (s.db.joins ++ [_]) = _
        rw [List.countP_append]
        simp [List.countP_cons]
      rw [hact]
      by_cases hu : inviter = u
      · subst hu
        rw [inviterCount_incInviter_same]
        have : inviterCount { s.db with joins := s.db.joins ++
            [⟨member.id, some inviter, some code, nowInsert, 1, 0⟩] } inviter =
            inviterCount s.db inviter := rfl
        rw [this, hcount inviter]
        simp
      · rw [inviterCount_incInviter_other _ _ _ hu]
        have : inviterCount { s.db with joins := s.db.joins ++
            [⟨member.id, some inviter, some code, nowInsert, 1, 0⟩] } u =
            inviterCount s.db u := rfl
        rw [this, hcount u]
        simp [hu]

theorem ledgerInv_remove (cfg : Config) (s : State) (member : Member) (now : Int)
    (h : LedgerInv s.db) : LedgerInv (onGuildMemberRemove cfg s member now).db := by
  rcases onGuildMemberRemove_cases cfg s member now with
    ⟨heq, _⟩ | ⟨row, _, hrow, h1, h2, _, heq⟩
  · rw [heq]; exact h
  · obtain ⟨hnd, hflag, hcount⟩ := h
    rw [heq]
    have hmem : row ∈ s.db.joins := List.mem_of_find?_eq_some hrow
    have hrev : row.reversed = 0 := by
      rcases hflag row hmem with h | h
      · exact h
      · exact absurd h h2
    have hjoins : (markReversed (decInviter s.db row.inviter_id) member.id).joins =
        s.db.joins.map (fun r => if r.member_id = member.id then { r with reversed := 1 } else r) := by
      show (decInviter s.db row.inviter_id).joins.map _ = _
      rw [decInviter_joins]
    refine ⟨?_, ?_, ?_⟩
    · show ((markReversed (decInviter s.db row.inviter_id) member.id).joins.map
        JoinRow.member_id).Nodup
      rw [hjoins, List.map_map]
      have : (JoinRow.member_id ∘
          fun r : JoinRow => if r.member_id = member.id then { r with reversed := 1 } else r) =
          JoinRow.member_id := by
        funext r
        by_cases hr : r.member_id = member.id <;> simp [hr]
      rw [this]
      exact hnd
    · intro r hr
      have hr2 : r ∈ (markReversed (decInviter s.db row.inviter_id) member.id).joins := hr
      rw [hjoins, List.mem_map] at hr2
      obtain ⟨a, ha, rfl⟩ := hr2
      by_cases hm : a.member_id = member.id
      · simp [hm]
      · simp only [if_neg hm]; exact hflag a ha
    · intro u
      have hstat : inviterCount (markReversed (decInviter s.db row.inviter_id) member.id) u =
          inviterCount (decInviter s.db row.inviter_id) u := rfl
      have hact := countP_markReversed
        (fun r => decide (r.inviter_id = some u ∧ r.counted_real = 1 ∧ r.reversed = 0))
        member.id (by intro r; simp) s.db.joins hnd row hrow
      have hact2 : activeJoins (markReversed (decInviter s.db row.inviter_id) member.id) u =
          (s.db.joins.map (fun r => if r.member_id = member.id then { r with reversed := 1 }
            else r)).countP
            (fun r => decide (r.inviter_id = some u ∧ r.counted_real = 1 ∧ r.reversed = 0)) := by
        unfold activeJoins
        rw [hjoins]
      show inviterCount (markReversed (decInviter s.db row.inviter_id) member.id) u = _
      rw [hstat, hact2]
      have hc := hcount u
      unfold activeJoins at hc
      by_cases hu : row.inviter_id = some u
      · rw [hu, inviterCount_decInviter_same, hc]
        have hp : decide (row.inviter_id = some u ∧ row.counted_real = 1 ∧ row.reversed = 0)
            = true := by simp [hu, h1, hrev]
        simp only [hp, if_true] at hact
        rw [max_eq_left (by omega)]
        omega
      · rw [inviterCount_decInviter_other _ _ _ hu, hc]
        have hp : decide (row.inviter_id = some u ∧ row.counted_real = 1 ∧ row.reversed = 0)
            = false := by simp [hu]
        simp only [hp, Bool.false_eq_true, if_false] at hact
        omega

theorem ledgerInv_run (cfg : Config) (evs : List Event) :
    ∀ s : State, LedgerInv s.db → LedgerInv (run cfg s evs).db := by
  induction evs with
  | nil => intro s h; exact h
  | cons ev evs ih =>
    intro s h
    show LedgerInv (run cfg (step cfg s ev) evs).db
    apply ih
    cases ev with
    | memberAdd member fetched nowCheck nowInsert =>
      exact ledgerInv_add cfg s member fetched nowCheck nowInsert h
    | memberRemove member now => exact ledgerInv_remove cfg s member now h

/-- C1: start with empty `joins` and `inviter_stats` tables (any personal
invites, any invite cache) and handle any finite sequence of arrival and
departure events one at a time; then for every inviter id the stored
`real_joins` (0 without a row) is the number of `joins` rows with that
`inviter_id`, `counted_real = 1` and `reversed = 0`.  In the worked example the
arrival of "m1" followed by a departure after 61 minutes leaves "inviter" at 1. -/
theorem counter_matches_ledger (cfg : Config) (personalInvites : List PersonalInviteRow)
    (cache : InvitesCache) (evs : List Event) (inviter : String) :
    inviterCount
      (run cfg ⟨⟨personalInvites, [], []⟩, cache⟩ evs).db inviter =
      ((run cfg ⟨⟨personalInvites, [], []⟩, cache⟩ evs).db.joins.countP
        (fun r => r.inviter_id = some inviter ∧ r.counted_real = 1 ∧ r.reversed = 0) : Nat) ∧
    inviterCount (run demoConfig demoState0
      [Event.memberAdd demoMember (some [⟨"CODE", some 1⟩]) demoT0 demoT0,
       Event.memberRemove demoMember (demoT0 + 61 * 60000)]).db "inviter" = 1 := by
  refine ⟨?_, by decide!⟩
  have hinit : LedgerInv (State.mk ⟨personalInvites, [], []⟩ cache).db :=
    ⟨List.nodup_nil, fun r hr => absurd hr (List.not_mem_nil r), fun u => rfl⟩
  exact (ledgerInv_run cfg evs _ hinit).2.2 inviter

/-! ### Snapshot diff -/

theorem onGuildMemberAdd_no_code (cfg : Config) (s : State) (member : Member)
    (fetched : Option (List Invite)) (nowCheck nowInsert : Int)
    (h : ∀ newInvites, fetched = some newInvites →
      resolveUsedCode (cacheGet s.invitesCache member.guildId) newInvites = none) :
    (onGuildMemberAdd cfg s member fetched nowCheck nowInsert).db = s.db := by
  unfold onGuildMemberAdd
  by_cases hg : member.guildId ≠ cfg.GUILD_ID
  · simp only [if_pos hg]
  · simp only [if_neg hg]
    cases fetched with
    | none => rfl
    | some newInvites =>
      have h1 := h newInvites rfl
      cases hold : cacheGet s.invitesCache member.guildId with
      | none => rfl
      | some old =>
        rw [hold] at h1
        simp only [resolveUsedCode, Option.map_eq_none'] at h1
        simp only [h1]

/-- C8: without a previous snapshot no code is resolved, and an arrival for
which no code is resolved writes nothing to the database; with a previous
snapshot the resolved invite is the first one of the new snapshot, in its
order, whose use count is strictly above its use count in the old snapshot (0
for a code the old snapshot does not hold), and none is resolved exactly when
no invite went up.  For old = (A:0, B:5) and new = (A:1, B:5, C:1) the
resolved code is A, one code and not C as well. -/
theorem resolveUsedCode_spec (oldInvites newInvites : List Invite) :
    resolveUsedCode none newInvites = none ∧
    (∀ (cfg : Config) (s : State) (member : Member) (nowCheck nowInsert : Int),
      resolveUsedCode (cacheGet s.invitesCache member.guildId) newInvites = none →
      (onGuildMemberAdd cfg s member (some newInvites) nowCheck nowInsert).db = s.db) ∧
    resolveUsedCode (some oldInvites) newInvites =
      (findUsed oldInvites newInvites).map (fun i => i.code) ∧
    (∀ inv, findUsed oldInvites newInvites = some inv ↔
      (oldUsesOf oldInvites inv.code < inv.uses.getD 0 ∧
       ∃ before after, newInvites = before ++ inv :: after ∧
         ∀ x ∈ before, ¬ (oldUsesOf oldInvites x.code < x.uses.getD 0))) ∧
    (findUsed oldInvites newInvites = none ↔
      ∀ x ∈ newInvites, ¬ (oldUsesOf oldInvites x.code < x.uses.getD 0)) ∧
    (∀ code, (∀ i ∈ oldInvites, i.code ≠ code) → oldUsesOf oldInvites code = 0) ∧
    (∀ code i, oldInvites.find? (fun j => j.code = code) = some i →
      oldUsesOf oldInvites code = i.uses.getD 0) ∧
    resolveUsedCode (some [⟨"A", some 0⟩, ⟨"B", some 5⟩])
      [⟨"A", some 1⟩, ⟨"B", some 5⟩, ⟨"C", some 1⟩] = some "A" := by
  refine ⟨rfl, ?_, rfl, ?_, ?_, ?_, ?_, by decide⟩
  · intro cfg s member nowCheck nowInsert h
    apply onGuildMemberAdd_no_code
    intro n hn
    cases hn
    exact h
  · intro inv
    unfold findUsed
    rw [List.find?_eq_some]
    simp [usesIncreased]
  · unfold findUsed
    rw [List.find?_eq_none]
    simp [usesIncreased]
  · intro code hcode
    unfold oldUsesOf
    have : oldInvites.find? (fun i => decide (i.code = code)) = none := by
      rw [List.find?_eq_none]
      intro x hx
      simpa using hcode x hx
    rw [this]
  · intro code i hi
    unfold oldUsesOf
    rw [hi]

/-- Witness for C8: a state that has no cached snapshot for the guild; the
arrival resolves no code and the database stays as it was. -/
theorem resolveUsedCode_spec_witness :
    resolveUsedCode (cacheGet (State.mk (Db.mk [⟨"u1", "A", "url", 0⟩] [] []) []).invitesCache
      (Member.mk ⟨"m1", false, 0, some "ana", none⟩ "g").guildId)
      [⟨"A", some 1⟩] = none ∧
    (onGuildMemberAdd demoConfig (State.mk (Db.mk [⟨"u1", "A", "url", 0⟩] [] []) [])
      (Member.mk ⟨"m1", false, 0, some "ana", none⟩ "g") (some [⟨"A", some 1⟩]) 5 5).db =
      Db.mk [⟨"u1", "A", "url", 0⟩] [] [] :=
  ⟨by decide,
   (resolveUsedCode_spec [] [⟨"A", some 1⟩]).2.1 demoConfig
     (State.mk (Db.mk [⟨"u1", "A", "url", 0⟩] [] []) [])
     (Member.mk ⟨"m1", false, 0, some "ana", none⟩ "g") 5 5 (by decide)⟩

/-! ### Role synchronisation -/

theorem rankRoleIdByInvites_mem (cfg : Config) (count : Int) (target : String)
    (h : rankRoleIdByInvites cfg count = some target) : target ∈ ALL_RANK_ROLE_IDS cfg := by
  unfold rankRoleIdByInvites at h
  unfold ALL_RANK_ROLE_IDS
  split_ifs at h <;> simp at h <;> simp [← h]

theorem rankRoleIdByInvites_none_iff (cfg : Config) (count : Int) :
    rankRoleIdByInvites cfg count = none ↔ count < 1 := by
  unfold rankRoleIdByInvites
  split_ifs <;> simp <;> omega

/-- C9 (as the code has it): with the five role ids set, when the count has a
target rank role (count at least 1), every rank role the member holds other
than the target is removed and nothing but rank roles the member holds is
removed; when there is no target (count below 1) the function returns at once
and removes nothing. -/
theorem syncInviterRank_removed (cfg : Config) (hcfg : cfg.rolesSet) (roles : List String)
    (count : Int) (cacheAfterRemove : List String) :
    (∀ target, rankRoleIdByInvites cfg count = some target →
      (∀ r, r ∈ ALL_RANK_ROLE_IDS cfg → r ∈ roles → r ≠ target →
        r ∈ removedRoles (syncInviterRank cfg (some roles) count cacheAfterRemove)) ∧
      (∀ r, r ∈ removedRoles (syncInviterRank cfg (some roles) count cacheAfterRemove) →
        r ∈ ALL_RANK_ROLE_IDS cfg ∧ r ∈ roles)) ∧
    (rankRoleIdByInvites cfg count = none →
      syncInviterRank cfg (some roles) count cacheAfterRemove = []) ∧
    (rankRoleIdByInvites cfg count = none ↔ count < 1) := by
  refine ⟨?_, ?_, rankRoleIdByInvites_none_iff cfg count⟩
  · intro target ht
    have hne : target ≠ "" := by
      have hm := rankRoleIdByInvites_mem cfg count target ht
      obtain ⟨h1, h2, h3, h4, h5⟩ := hcfg
      simp only [ALL_RANK_ROLE_IDS, List.mem_cons, List.mem_singleton, List.not_mem_nil,
        or_false] at hm
      rcases hm with rfl | rfl | rfl | rfl | rfl <;> assumption
    have hrem : ∀ r, r ∈ removedRoles (syncInviterRank cfg (some roles) count cacheAfterRemove) ↔
        (r ∈ ALL_RANK_ROLE_IDS cfg ∧ r ∈ roles) := by
      intro r
      unfold syncInviterRank
      simp only [ht, if_neg hne]
      by_cases hlen : ((ALL_RANK_ROLE_IDS cfg).filter (fun rid => decide (rid ∈ roles))).length ≠ 0
      · simp only [if_pos hlen]
        split_ifs <;> simp [removedRoles, List.mem_filter]
      · simp only [if_neg hlen]
        have hnil : (ALL_RANK_ROLE_IDS cfg).filter (fun rid => decide (rid ∈ roles)) = [] := by
          simpa using hlen
        have hno : ¬ (r ∈ ALL_RANK_ROLE_IDS cfg ∧ r ∈ roles) := by
          intro ⟨h1, h2⟩
          have : r ∈ (ALL_RANK_ROLE_IDS cfg).filter (fun rid => decide (rid ∈ roles)) := by
            simp [List.mem_filter, h1, h2]
          rw [hnil] at this
          exact List.not_mem_nil _ this
        split_ifs <;> simp [removedRoles, hno]
    exact ⟨fun r h1 h2 _ => (hrem r).mpr ⟨h1, h2⟩, fun r h => (hrem r).mp h⟩
  · intro hnone
    unfold syncInviterRank
    simp only [hnone]

/-- Witness for C9 (as the code has it): a member at 14 invites holding the
bronze and prata roles has bronze removed. -/
theorem syncInviterRank_removed_witness :
    demoConfig.rolesSet ∧ rankRoleIdByInvites demoConfig 14 = some "r-prata" ∧
    "r-bronze" ∈ removedRoles
      (syncInviterRank demoConfig (some ["r-bronze", "r-prata", "other"]) 14 ["r-prata", "other"]) :=
  ⟨by decide, by decide,
   ((syncInviterRank_removed demoConfig (by decide) ["r-bronze", "r-prata", "other"] 14
      ["r-prata", "other"]).1 "r-prata" (by decide)).1 "r-bronze" (by decide) (by decide)
      (by decide)⟩

/-- C9 as written fails on the code: at count 0 (no target) a held bronze role
is not removed, and at count 1 (target bronze) the held bronze role is among
the removed roles. -/
theorem syncInviterRank_removed_counterexample :
    ¬ (∀ r, r ∈ removedRoles (syncInviterRank demoConfig (some ["r-bronze"]) 0 ["r-bronze"]) ↔
        (r ∈ ALL_RANK_ROLE_IDS demoConfig ∧ r ∈ ["r-bronze"] ∧
          some r ≠ rankRoleIdByInvites demoConfig 0)) ∧
    ¬ (∀ r, r ∈ removedRoles (syncInviterRank demoConfig (some ["r-bronze"]) 1 ["r-bronze"]) ↔
        (r ∈ ALL_RANK_ROLE_IDS demoConfig ∧ r ∈ ["r-bronze"] ∧
          some r ≠ rankRoleIdByInvites demoConfig 1)) := by
  constructor
  · intro h
    have h1 := (h "r-bronze").mpr (by decide)
    revert h1
    decide
  · intro h
    have h1 := (h "r-bronze").mp (by decide)
    revert h1
    decide

/-- C10 fails on the code: a member at count 1 who holds exactly the target
role (bronze) and no other rank role still gets a `roles.remove` request that
names the bronze role, whatever the role cache holds afterwards; with a cache
that was not refreshed that is the only request, with a refreshed one the
role is added again. -/
theorem syncInviterRank_not_idempotent :
    (∀ cacheAfterRemove : List String,
      RoleCall.remove ["r-bronze"] ∈
        syncInviterRank demoConfig (some ["r-bronze"]) 1 cacheAfterRemove) ∧
    syncInviterRank demoConfig (some ["r-bronze"]) 1 ["r-bronze"] =
      [RoleCall.remove ["r-bronze"]] ∧
    syncInviterRank demoConfig (some ["r-bronze"]) 1 [] =
      [RoleCall.remove ["r-bronze"], RoleCall.add "r-bronze"] := by
  refine ⟨?_, by decide, by decide⟩
  intro c
  have h : syncInviterRank demoConfig (some ["r-bronze"]) 1 c =
      [RoleCall.remove ["r-bronze"]] ++
        (if "r-bronze" ∉ c then [RoleCall.add "r-bronze"] else []) := by
    unfold syncInviterRank
    rfl
  rw [h]
  simp

/-! ### Life cycle of a join record -/

theorem rowKept_refl (r : JoinRow) : RowKept r r :=
  ⟨rfl, rfl, rfl, rfl, rfl, fun h => h, Or.inl rfl⟩

theorem rowKept_trans (a b c : JoinRow) (h1 : RowKept a b) (h2 : RowKept b c) :
    RowKept a c := by
  obtain ⟨m1, i1, c1, j1, k1, s1, r1⟩ := h1
  obtain ⟨m2, i2, c2, j2, k2, s2, r2⟩ := h2
  refine ⟨m2.trans m1, i2.trans i1, c2.trans c1, j2.trans j1, k2.trans k1,
    fun h => s2 (s1 h), ?_⟩
  rcases r1 with r1 | r1
  · rcases r2 with r2 | r2
    · exact Or.inl (r2.trans r1)
    · exact Or.inr r2
  · exact Or.inr (s2 r1)

theorem rowKept_markReversed (m : String) (r : JoinRow) :
    RowKept r (if r.member_id = m then { r with reversed := 1 } else r) := by
  by_cases h : r.member_id = m
  · rw [if_pos h]
    exact ⟨rfl, rfl, rfl, rfl, rfl, fun _ => rfl, Or.inr rfl⟩
  · rw [if_neg h]
    exact rowKept_refl r

theorem step_joins_shape (cfg : Config) (s : State) (ev : Event) :
    ∃ (f : JoinRow → JoinRow) (added : List JoinRow),
      (∀ r, RowKept r (f r)) ∧ (∀ r ∈ added, r.reversed = 0) ∧ added.length ≤ 1 ∧
      (step cfg s ev).db.joins = s.db.joins.map f ++ added := by
  cases ev with
  | memberAdd member fetched nowCheck nowInsert =>
    show ∃ (f : JoinRow → JoinRow) (added : List JoinRow), _ ∧ _ ∧ _ ∧
      (onGuildMemberAdd cfg s member fetched nowCheck nowInsert).db.joins = _
    rcases onGuildMemberAdd_db_cases cfg s member fetched nowCheck nowInsert with
      h | ⟨inviter, code, _, ⟨_, h⟩ | ⟨_, h⟩⟩
    · refine ⟨id, [], rowKept_refl, ?_, Nat.zero_le _, ?_⟩
      · intro r hr; exact absurd hr (List.not_mem_nil r)
      · rw [h]; simp
    · refine ⟨id, [⟨member.id, some inviter, some code, nowInsert, 0, 0⟩], rowKept_refl,
        ?_, Nat.le_refl _, ?_⟩
      · intro r hr
        rw [List.mem_singleton] at hr
        rw [hr]
      · rw [h]; simp
    · refine ⟨id, [⟨member.id, some inviter, some code, nowInsert, 1, 0⟩], rowKept_refl,
        ?_, Nat.le_refl _, ?_⟩
      · intro r hr
        rw [List.mem_singleton] at hr
        rw [hr]
      · rw [h, incInviter_joins]; simp
  | memberRemove member now =>
    show ∃ (f : JoinRow → JoinRow) (added : List JoinRow), _ ∧ _ ∧ _ ∧
      (onGuildMemberRemove cfg s member now).db.joins = _
    rcases onGuildMemberRemove_cases cfg s member now with
      ⟨heq, _⟩ | ⟨row, _, _, _, _, _, heq⟩
    · refine ⟨id, [], rowKept_refl, ?_, Nat.zero_le _, ?_⟩
      · intro r hr; exact absurd hr (List.not_mem_nil r)
      · rw [heq]; simp
    · refine ⟨fun r => if r.member_id = member.id then { r with reversed := 1 } else r, [],
        rowKept_markReversed member.id, ?_, Nat.zero_le _, ?_⟩
      · intro r hr; exact absurd hr (List.not_mem_nil r)
      · rw [heq, List.append_nil]
        show (decInviter s.db row.inviter_id).joins.map _ = _
        rw [decInviter_joins]

theorem joinsPersist_step (cfg : Config) (s : State) (ev : Event) :
    JoinsPersist s.db.joins (step cfg s ev).db.joins := by
  obtain ⟨f, added, hf, _, _, hshape⟩ := step_joins_shape cfg s ev
  intro i r hi
  have hlt : i < s.db.joins.length := (List.getElem?_eq_some.mp hi).1
  refine ⟨f r, ?_, hf r⟩
  rw [hshape, List.getElem?_append_left (by rw [List.length_map]; exact hlt),
    List.getElem?_map, hi]
  rfl

theorem joinsPersist_run (cfg : Config) (evs : List Event) :
    ∀ s : State, JoinsPersist s.db.joins (run cfg s evs).db.joins := by
  induction evs with
  | nil => intro s i r hi; exact ⟨r, hi, rowKept_refl r⟩
  | cons ev evs ih =>
    intro s i r hi
    obtain ⟨r1, h1, k1⟩ := joinsPersist_step cfg s ev i r hi
    obtain ⟨r2, h2, k2⟩ := ih (step cfg s ev) i r1 h1
    exact ⟨r2, h2, rowKept_trans r r1 r2 k1 k2⟩

/-- C11: for every state and every arrival or departure event, each `joins`
row is still there afterwards, at its position, with the same `member_id`,
`inviter_id`, `invite_code`, `joined_at` and `counted_real`, and with a
`reversed` flag that is the same or 1 (so never back from 1); at most one row is
added, and an added row has `reversed = 0`.  The same persistence holds over
every finite sequence of events, so a flag that has reached 1 stays 1 and the
change 0 to 1 happens at most once. -/
theorem join_record_lifecycle (cfg : Config) (s : State) (ev : Event) :
    JoinsPersist s.db.joins (step cfg s ev).db.joins ∧
    (∀ (i : Nat) (r : JoinRow), s.db.joins.length ≤ i →
      (step cfg s ev).db.joins[i]? = some r → r.reversed = 0) ∧
    s.db.joins.length ≤ (step cfg s ev).db.joins.length ∧
    (step cfg s ev).db.joins.length ≤ s.db.joins.length + 1 ∧
    (∀ evs : List Event, JoinsPersist s.db.joins (run cfg s evs).db.joins) ∧
    (∀ (evs : List Event) (i : Nat) (r : JoinRow), s.db.joins[i]? = some r → r.reversed = 1 →
      ∃ r2, (run cfg s evs).db.joins[i]? = some r2 ∧ r2.reversed = 1) := by
  obtain ⟨f, added, hf, hadded, hlen, hshape⟩ := step_joins_shape cfg s ev
  refine ⟨joinsPersist_step cfg s ev, ?_, ?_, ?_, fun evs => joinsPersist_run cfg evs s, ?_⟩
  · intro i r hi hr
    rw [hshape, List.getElem?_append_right (by rw [List.length_map]; exact hi)] at hr
    exact hadded r (List.mem_iff_getElem?.mpr ⟨_, hr⟩)
  · rw [hshape, List.length_append, List.length_map]
    exact Nat.le_add_right _ _
  · rw [hshape, List.length_append, List.length_map]
    exact Nat.add_le_add_left hlen _
  · intro evs i r hi hr
    obtain ⟨r2, h2, k2⟩ := joinsPersist_run cfg evs s i r hi
    exact ⟨r2, h2, k2.2.2.2.2.2.1 hr⟩

/-- Witness for C11: in the worked example the row of "m1" is at position 0;
after the departure at T0 + 59 minutes it is still there, the same but for
`reversed = 1`. -/
theorem join_record_lifecycle_witness :
    demoState1.db.joins[0]? = some ⟨"m1", some "inviter", some "CODE", demoT0, 1, 0⟩ ∧
    ∃ r2, (step demoConfig demoState1
        (Event.memberRemove demoMember (demoT0 + 59 * 60000))).db.joins[0]? = some r2 ∧
      RowKept ⟨"m1", some "inviter", some "CODE", demoT0, 1, 0⟩ r2 :=
  ⟨by decide,
   (join_record_lifecycle demoConfig demoState1
      (Event.memberRemove demoMember (demoT0 + 59 * 60000))).1 0
      ⟨"m1", some "inviter", some "CODE", demoT0, 1, 0⟩ (by decide)⟩

end Ghost
